import Mathlib

/-!
Verification development for the garnish-lang serde codec
(`src/serializer.rs`, `src/deserializer.rs`, `src/options.rs`).

The runtime value store is the external collaborator described by the spec's
interface section: a heap of tagged values addressed by opaque handles, where
every `add` operation appends a fresh cell and returns its address.  We embed
the heap as a `List GData` with `Nat` handles; store numbers are embedded as
`Int` (the store's scalar type is generic and external, the codec only relies
on lossless integer round-trips).
-/

set_option maxHeartbeats 1000000

/-- The closed set of runtime value tags with their payloads
(`GarnishDataType` together with the per-tag data the codec reads/writes). -/
inductive GData where
  | dUnit
  | dTrue
  | dFalse
  | dNumber (n : Int)
  | dChar (c : Char)
  | dCharList (s : List Char)
  | dByteList (bs : List Nat)
  | dSymbol (s : List Char)
  | dPair (k v : Nat)
  | dList (items : List (Nat × Bool))
  | dConcat (l r : Nat)
  | dRange (rs re : Nat)
  | dSlice (src rng : Nat)
deriving DecidableEq, Repr

namespace Serializer

/-- `OptionalBehavior` from `src/serializer.rs`. -/
inductive OptionalBehavior where
  | Pair
  | UnitValue
deriving DecidableEq, Repr

/-- `StructBehavior` from `src/serializer.rs`. -/
inductive StructBehavior where
  | ExcludeTyping
  | IncludeTyping
deriving DecidableEq, Repr

/-- `VariantNameBehavior` from `src/serializer.rs`. -/
inductive VariantNameBehavior where
  | Short
  | Full
  | Index
deriving DecidableEq, Repr

end Serializer

namespace Options

/-- `OptionalBehavior` from `src/options.rs` (the later snapshot renames
`Pair` to `UnitSymbol`). -/
inductive OptionalBehavior where
  | UnitSymbol
  | UnitValue
deriving DecidableEq, Repr

/-- `GarnishSerializationOptions` from `src/options.rs`. -/
structure GarnishSerializationOptions where
  optional_behavior : OptionalBehavior
  struct_typing_behavior : Serializer.StructBehavior
  variant_name_behavior : Serializer.VariantNameBehavior
deriving DecidableEq, Repr

/-- `GarnishSerializationOptions::new` from `src/options.rs`. -/
def GarnishSerializationOptions.new : GarnishSerializationOptions :=
  { optional_behavior := OptionalBehavior.UnitValue
    struct_typing_behavior := Serializer.StructBehavior.ExcludeTyping
    variant_name_behavior := Serializer.VariantNameBehavior.Full }

end Options

/-- The three behavior fields a `GarnishDataSerializer` carries
(set in `GarnishDataSerializer::new` and by the `set_*` methods); they are
never mutated during a serialization run, so we pass them as a parameter. -/
structure SerOptions where
  optional_behavior : Serializer.OptionalBehavior
  unit_struct_behavior : Serializer.StructBehavior
  variant_name_behavior : Serializer.VariantNameBehavior
deriving DecidableEq, Repr

/-- The behavior fields as initialized by `GarnishDataSerializer::new`
(`src/serializer.rs` lines 186-197): note the optional behavior defaults to
`Pair`, not `UnitValue`. -/
def GarnishDataSerializer.newOptions : SerOptions :=
  { optional_behavior := Serializer.OptionalBehavior.Pair
    unit_struct_behavior := Serializer.StructBehavior.ExcludeTyping
    variant_name_behavior := Serializer.VariantNameBehavior.Full }

/-- The spec's default combination (unit-value optionals, excluded struct
typing, full variant naming), matching `GarnishSerializationOptions::new`. -/
def defaultSerOptions : SerOptions :=
  { optional_behavior := Serializer.OptionalBehavior.UnitValue
    unit_struct_behavior := Serializer.StructBehavior.ExcludeTyping
    variant_name_behavior := Serializer.VariantNameBehavior.Full }

/-- Mutable state threaded through a serialization run: the store's heap and
its in-progress list/char-list/byte-list builders, plus the serializer's
`struct_sym` and `pending_key` fields. -/
structure SerState where
  heap : List GData
  listStack : List (List (Nat × Bool))
  charStack : List (List Char)
  byteStack : List (List Nat)
  struct_sym : Option Nat
  pending_key : Option Nat
deriving DecidableEq, Repr

/-- A fresh store with no pending builders (the state in which every
serializer session starts). -/
def SerState.empty : SerState :=
  { heap := [], listStack := [], charStack := [], byteStack := []
    struct_sym := none, pending_key := none }

/-- `data_name_meta_key`: the reserved metadata key `"__data_name__"`. -/
def data_name_meta_key : List Char := "__data_name__".data

/-- Store operation: append a cell, return its fresh handle. -/
def addData (st : SerState) (d : GData) : Nat × SerState :=
  (st.heap.length, { st with heap := st.heap ++ [d] })

/-- Store operation `start_list`: open a new in-progress list. -/
def start_list (st : SerState) : SerState :=
  { st with listStack := [] :: st.listStack }

/-- Store operation `add_to_list`: append `(addr, assoc)` to the innermost
in-progress list; fails when no list is open. -/
def add_to_list (st : SerState) (addr : Nat) (assoc : Bool) : Option SerState :=
  match st.listStack with
  | [] => none
  | cur :: rest => some { st with listStack := (cur ++ [(addr, assoc)]) :: rest }

/-- Store operation `end_list`: close the innermost in-progress list and add
it to the heap. -/
def end_list (st : SerState) : Option (Nat × SerState) :=
  match st.listStack with
  | [] => none
  | cur :: rest => some (addData { st with listStack := rest } (GData.dList cur))

/-- Store operations `start_char_list` / `add_to_char_list` / `end_char_list`. -/
def start_char_list (st : SerState) : SerState :=
  { st with charStack := [] :: st.charStack }

def add_to_char_list (st : SerState) (c : Char) : Option SerState :=
  match st.charStack with
  | [] => none
  | cur :: rest => some { st with charStack := (cur ++ [c]) :: rest }

def end_char_list (st : SerState) : Option (Nat × SerState) :=
  match st.charStack with
  | [] => none
  | cur :: rest => some (addData { st with charStack := rest } (GData.dCharList cur))

/-- Store operations `start_byte_list` / `add_to_byte_list` / `end_byte_list`. -/
def start_byte_list (st : SerState) : SerState :=
  { st with byteStack := [] :: st.byteStack }

def add_to_byte_list (st : SerState) (b : Nat) : Option SerState :=
  match st.byteStack with
  | [] => none
  | cur :: rest => some { st with byteStack := (cur ++ [b]) :: rest }

def end_byte_list (st : SerState) : Option (Nat × SerState) :=
  match st.byteStack with
  | [] => none
  | cur :: rest => some (addData { st with byteStack := rest } (GData.dByteList cur))

/-- Store operation `parse_add_symbol`. -/
def parse_add_symbol (st : SerState) (s : List Char) : Nat × SerState :=
  addData st (GData.dSymbol s)

/-- Store operation `add_symbol_from`: coerce the value at `v` to a symbol
(used by `SerializeMap::serialize_key`; the store realizes text-like values,
modelled here for char lists and symbols). -/
def add_symbol_from (st : SerState) (v : Nat) : Option (Nat × SerState) :=
  match st.heap.get? v with
  | some (GData.dCharList s) => some (addData st (GData.dSymbol s))
  | some (GData.dSymbol s) => some (addData st (GData.dSymbol s))
  | _ => none

/-- Store operation `add_pair`. -/
def add_pair (st : SerState) (k v : Nat) : Nat × SerState :=
  addData st (GData.dPair k v)

/-- Store operation `add_unit`. -/
def add_unit (st : SerState) : Nat × SerState :=
  addData st GData.dUnit

/-- The generic structured values driving the encoder (the serde data model
restricted to the shapes the claims quantify over; map keys are strings, the
only key form the codec's symbol coercion round-trips). -/
inductive SValue where
  | vBool (b : Bool)
  | vInt (n : Int)
  | vChar (c : Char)
  | vStr (s : List Char)
  | vBytes (bs : List Nat)
  | vUnit
  | vUnitStruct (name : List Char)
  | vNone
  | vSome (v : SValue)
  | vSeq (items : List SValue)
  | vTuple (items : List SValue)
  | vMap (entries : List (List Char × SValue))
  | vStruct (sname : List Char) (fields : List (List Char × SValue))
  | vUnitVariant (ename vname : List Char) (idx : Nat)
  | vNewtypeVariant (ename vname : List Char) (idx : Nat) (payload : SValue)

/-- `Serializer::serialize_str`: build a CharList from the string's chars. -/
def serialize_str (st : SerState) (s : List Char) : Option (Nat × SerState) :=
  let st1 := start_char_list st
  match s.foldlM add_to_char_list st1 with
  | none => none
  | some st2 => end_char_list st2

/-- `Serializer::serialize_bytes`: build a ByteList. -/
def serialize_bytes (st : SerState) (bs : List Nat) : Option (Nat × SerState) :=
  let st1 := start_byte_list st
  match bs.foldlM add_to_byte_list st1 with
  | none => none
  | some st2 => end_byte_list st2

/-- `Serializer::serialize_unit_variant`: the discriminant per naming
behavior — `Short` → `Symbol(variant)`, `Full` → `Symbol("name::variant")`,
`Index` → `Number(variant_index)`. -/
def serialize_unit_variant (opts : SerOptions) (st : SerState)
    (name : List Char) (variant_index : Nat) (variant : List Char) :
    Nat × SerState :=
  match opts.variant_name_behavior with
  | Serializer.VariantNameBehavior.Short => parse_add_symbol st variant
  | Serializer.VariantNameBehavior.Full =>
      parse_add_symbol st (name ++ [':', ':'] ++ variant)
  | Serializer.VariantNameBehavior.Index =>
      addData st (GData.dNumber (Int.ofNat variant_index))

/-- `GarnishDataSerializer::end_struct_like`: under `IncludeTyping` append a
trailing `Pair(metadata-symbol, struct_sym)` entry, then `end_list`. -/
def end_struct_like (opts : SerOptions) (st : SerState) :
    Option (Nat × SerState) :=
  match opts.unit_struct_behavior, st.struct_sym with
  | Serializer.StructBehavior.IncludeTyping, some addr =>
      let (sym, st1) := parse_add_symbol st data_name_meta_key
      let (pair, st2) := add_pair st1 sym addr
      match add_to_list st2 pair true with
      | none => none
      | some st3 => end_list st3
  | Serializer.StructBehavior.IncludeTyping, none => none
  | _, _ => end_list st

mutual

/-- The encoder: one case per serde shape, each the embedding of the
corresponding `Serializer`/`Serialize*` method of `src/serializer.rs`
(the serde `Serialize` driver calls them in this order). -/
def serializeValue (opts : SerOptions) (st : SerState) :
    SValue → Option (Nat × SerState)
  | SValue.vBool true => some (addData st GData.dTrue)
  | SValue.vBool false => some (addData st GData.dFalse)
  | SValue.vInt n => some (addData st (GData.dNumber n))
  | SValue.vChar c => some (addData st (GData.dChar c))
  | SValue.vStr s => serialize_str st s
  | SValue.vBytes bs => serialize_bytes st bs
  | SValue.vUnit => some (add_unit st)
  | SValue.vUnitStruct name =>
      -- serialize_unit_struct
      match opts.unit_struct_behavior with
      | Serializer.StructBehavior.ExcludeTyping => some (add_unit st)
      | Serializer.StructBehavior.IncludeTyping =>
          match serialize_str st name with
          | none => none
          | some (name_addr, st1) =>
            let (sym, st2) := parse_add_symbol st1 data_name_meta_key
            let (pair, st3) := add_pair st2 sym name_addr
            let st4 := start_list st3
            match add_to_list st4 pair true with
            | none => none
            | some st5 => end_list st5
  | SValue.vNone =>
      -- serialize_none
      let (unit, st1) := add_unit st
      match opts.optional_behavior with
      | Serializer.OptionalBehavior.Pair =>
          let (sym, st2) := parse_add_symbol st1 "none".data
          some (add_pair st2 sym unit)
      | Serializer.OptionalBehavior.UnitValue => some (unit, st1)
  | SValue.vSome v =>
      -- serialize_some
      match serializeValue opts st v with
      | none => none
      | some (val, st1) =>
        match opts.optional_behavior with
        | Serializer.OptionalBehavior.Pair =>
            let (sym, st2) := parse_add_symbol st1 "some".data
            some (add_pair st2 sym val)
        | Serializer.OptionalBehavior.UnitValue => some (val, st1)
  | SValue.vSeq items =>
      -- serialize_seq + SerializeSeq elements + end
      let st1 := start_list st
      match serializeSeqItems opts st1 items with
      | none => none
      | some st2 => end_list st2
  | SValue.vTuple items =>
      -- serialize_tuple delegates to serialize_seq
      let st1 := start_list st
      match serializeSeqItems opts st1 items with
      | none => none
      | some st2 => end_list st2
  | SValue.vMap entries =>
      -- serialize_map + SerializeMap key/value + end
      let st1 := start_list st
      match serializeMapEntries opts st1 entries with
      | none => none
      | some st2 => end_list st2
  | SValue.vStruct sname fields =>
      -- serialize_struct sets struct_sym, fields via SerializeStruct,
      -- end via end_struct_like
      let (sym, st1) := parse_add_symbol st sname
      let st2 := { st1 with struct_sym := some sym }
      let st3 := start_list st2
      match serializeStructFields opts st3 fields with
      | none => none
      | some st4 => end_struct_like opts st4
  | SValue.vUnitVariant ename vname idx =>
      some (serialize_unit_variant opts st ename idx vname)
  | SValue.vNewtypeVariant ename vname idx payload =>
      -- serialize_newtype_variant: start_list(1); discriminant; payload;
      -- pair; add_to_list(pair, behavior != Index); end_list
      let st1 := start_list st
      let (sym, st2) := serialize_unit_variant opts st1 ename idx vname
      match serializeValue opts st2 payload with
      | none => none
      | some (value, st3) =>
        let (pair, st4) := add_pair st3 sym value
        match add_to_list st4 pair
            (opts.variant_name_behavior != Serializer.VariantNameBehavior.Index) with
        | none => none
        | some st5 => end_list st5

/-- `SerializeSeq::serialize_element` over the elements: each is serialized
then appended with associative flag `false`. -/
def serializeSeqItems (opts : SerOptions) (st : SerState) :
    List SValue → Option SerState
  | [] => some st
  | v :: rest =>
      match serializeValue opts st v with
      | none => none
      | some (addr, st1) =>
        match add_to_list st1 addr false with
        | none => none
        | some st2 => serializeSeqItems opts st2 rest

/-- `SerializeMap::serialize_key`/`serialize_value` over the entries: the key
is serialized, coerced to a symbol into `pending_key`, then the value is
serialized, paired with the key and appended with associative flag `true`. -/
def serializeMapEntries (opts : SerOptions) (st : SerState) :
    List (List Char × SValue) → Option SerState
  | [] => some st
  | (k, v) :: rest =>
      match serialize_str st k with
      | none => none
      | some (kaddr, st1) =>
        match add_symbol_from st1 kaddr with
        | none => none
        | some (ksym, st2) =>
          let st3 := { st2 with pending_key := some ksym }
          match st3.pending_key with
          | none => none
          | some key =>
            match serializeValue opts st3 v with
            | none => none
            | some (val, st4) =>
              let (pair, st5) := add_pair st4 key val
              match add_to_list st5 pair true with
              | none => none
              | some st6 => serializeMapEntries opts st6 rest

/-- `SerializeStruct::serialize_field` over the fields: the key is parsed
directly to a symbol, the value serialized, paired and appended with
associative flag `true`. -/
def serializeStructFields (opts : SerOptions) (st : SerState) :
    List (List Char × SValue) → Option SerState
  | [] => some st
  | (k, v) :: rest =>
      let (ksym, st1) := parse_add_symbol st k
      match serializeValue opts st1 v with
      | none => none
      | some (val, st2) =>
        let (pair, st3) := add_pair st2 ksym val
        match add_to_list st3 pair true with
        | none => none
        | some st4 => serializeStructFields opts st4 rest

end

/-! ## Decoder: store read operations over the heap -/

/-- `get_data_type` (plus fetching the cell): store read, wrapped error on a
dangling handle. -/
def get_data (h : List GData) (a : Nat) : Except String GData :=
  match h.get? a with
  | some d => Except.ok d
  | none => Except.error "store error"

/-- `get_list_len`. -/
def get_list_len (h : List GData) (a : Nat) : Except String Nat :=
  match h.get? a with
  | some (GData.dList es) => Except.ok es.length
  | _ => Except.error "store error"

/-- `get_list_item` (decode reads positionally; the associative flag is
ignored). -/
def get_list_item (h : List GData) (a i : Nat) : Except String Nat :=
  match h.get? a with
  | some (GData.dList es) =>
      match es.get? i with
      | some e => Except.ok e.1
      | none => Except.error "store error"
  | _ => Except.error "store error"

/-- `get_pair`. -/
def get_pair (h : List GData) (a : Nat) : Except String (Nat × Nat) :=
  match h.get? a with
  | some (GData.dPair k v) => Except.ok (k, v)
  | _ => Except.error "store error"

/-- `get_concatenation`. -/
def get_concatenation (h : List GData) (a : Nat) : Except String (Nat × Nat) :=
  match h.get? a with
  | some (GData.dConcat l r) => Except.ok (l, r)
  | _ => Except.error "store error"

/-- `get_range`. -/
def get_range (h : List GData) (a : Nat) : Except String (Nat × Nat) :=
  match h.get? a with
  | some (GData.dRange s e) => Except.ok (s, e)
  | _ => Except.error "store error"

/-- `get_slice`. -/
def get_slice (h : List GData) (a : Nat) : Except String (Nat × Nat) :=
  match h.get? a with
  | some (GData.dSlice src rng) => Except.ok (src, rng)
  | _ => Except.error "store error"

/-- `get_number`. -/
def get_number (h : List GData) (a : Nat) : Except String Int :=
  match h.get? a with
  | some (GData.dNumber n) => Except.ok n
  | _ => Except.error "store error"

/-- Conversion of a store number to a `usize` index (the `.into()` calls in
`ListAccessor::new_with_max`); negative numbers have no `usize` image and are
treated as a conversion failure of the external store. -/
def number_to_usize (n : Int) : Except String Nat :=
  if n < 0 then Except.error "number conversion error" else Except.ok n.toNat

/-- `get_char_list_len`. -/
def get_char_list_len (h : List GData) (a : Nat) : Except String Nat :=
  match h.get? a with
  | some (GData.dCharList s) => Except.ok s.length
  | _ => Except.error "store error"

/-- `get_char_list_item`. -/
def get_char_list_item (h : List GData) (a i : Nat) : Except String Char :=
  match h.get? a with
  | some (GData.dCharList s) =>
      match s.get? i with
      | some c => Except.ok c
      | none => Except.error "store error"
  | _ => Except.error "store error"

/-- `get_byte_list_len`. -/
def get_byte_list_len (h : List GData) (a : Nat) : Except String Nat :=
  match h.get? a with
  | some (GData.dByteList bs) => Except.ok bs.length
  | _ => Except.error "store error"

/-- `get_byte_list_item`. -/
def get_byte_list_item (h : List GData) (a i : Nat) : Except String Nat :=
  match h.get? a with
  | some (GData.dByteList bs) =>
      match bs.get? i with
      | some b => Except.ok b
      | none => Except.error "store error"
  | _ => Except.error "store error"

/-- Modelled from the spec: the text the external store produces when asked
to realize a handle into a CharList (`add_char_list_from`).  The spec pins
this down for the tags the decoder materializes — CharList and Symbol give
their own text, Concatenation concatenates its children's text left to
right, Slice takes the inclusive `[start, end]` character range of its
source's text (empty when `end < start`).  Other tags are left to the store
and modelled as a store failure.  `none` models divergence (insufficient
fuel on a cyclic heap). -/
def textOf (h : List GData) : Nat → Nat → Option (Except String (List Char))
  | 0, _ => none
  | f + 1, a =>
    match h.get? a with
    | some (GData.dCharList s) => some (Except.ok s)
    | some (GData.dSymbol s) => some (Except.ok s)
    | some (GData.dConcat l r) =>
        match textOf h f l with
        | none => none
        | some (Except.error e) => some (Except.error e)
        | some (Except.ok ls) =>
          match textOf h f r with
          | none => none
          | some (Except.error e) => some (Except.error e)
          | some (Except.ok rs) => some (Except.ok (ls ++ rs))
    | some (GData.dSlice src rng) =>
        match get_range h rng with
        | Except.error e => some (Except.error e)
        | Except.ok (sref, eref) =>
          match get_number h sref, get_number h eref with
          | Except.ok sn, Except.ok en =>
            match number_to_usize sn, number_to_usize en with
            | Except.ok s, Except.ok e =>
              match textOf h f src with
              | none => none
              | some (Except.error msg) => some (Except.error msg)
              | some (Except.ok cs) =>
                  if e < s then some (Except.ok [])
                  else some (Except.ok ((cs.drop s).take (e - s + 1)))
            | Except.error msg, _ => some (Except.error msg)
            | _, Except.error msg => some (Except.error msg)
          | Except.error msg, _ => some (Except.error msg)
          | _, Except.error msg => some (Except.error msg)
    | some _ => some (Except.error "cannot realize as char list")
    | none => some (Except.error "store error")

/-- `add_char_list_from`: realize `a` into a fresh CharList cell appended to
the heap (the decoder's only allocating operation). -/
def add_char_list_from (h : List GData) (fuel a : Nat) :
    Option (Except String (Nat × List GData)) :=
  match textOf h fuel a with
  | none => none
  | some (Except.error e) => some (Except.error e)
  | some (Except.ok s) => some (Except.ok (h.length, h ++ [GData.dCharList s]))

/-- The char-reading loop shared by `deserialize_string` and
`create_symbol_string`: read `count` chars of `a` by index starting at `i`. -/
def readCharListLoop (h : List GData) (a : Nat) :
    Nat → Nat → List Char → Except String (List Char)
  | 0, _, acc => Except.ok acc
  | k + 1, i, acc =>
    match get_char_list_item h a i with
    | Except.error e => Except.error e
    | Except.ok c => readCharListLoop h a k (i + 1) (acc ++ [c])

/-- Materialize a CharList handle into a string by indexed iteration
(`get_char_list_len` then `get_char_list_item` for `0..len`). -/
def readCharList (h : List GData) (a : Nat) : Except String (List Char) :=
  match get_char_list_len h a with
  | Except.error e => Except.error e
  | Except.ok len => readCharListLoop h a len 0 []

/-- `GarnishDataDeserializer::create_symbol_string`: realize the handle into
a CharList (`add_char_list_from`) then iterate its chars.  The allocated
cell is internal to the call and never referenced afterwards, so only the
produced string is returned. -/
def create_symbol_string (h : List GData) (fuel a : Nat) :
    Option (Except String (List Char)) :=
  match add_char_list_from h fuel a with
  | none => none
  | some (Except.error e) => some (Except.error e)
  | some (Except.ok (a1, h1)) => some (readCharList h1 a1)

/-- `deserialize_string`: CharList handles are read by indexed iteration;
Symbol, Concatenation and Slice handles are realized into a CharList first
(`add_char_list_from`) and then read through `create_symbol_string` (which
realizes once more, a no-op on a CharList); every other tag is an error. -/
def deserialize_string (h : List GData) (fuel a : Nat) :
    Option (Except String (List Char)) :=
  match h.get? a with
  | some (GData.dCharList _) => some (readCharList h a)
  | some (GData.dSymbol _) | some (GData.dConcat _ _) | some (GData.dSlice _ _) =>
      match add_char_list_from h fuel a with
      | none => none
      | some (Except.error e) => some (Except.error e)
      | some (Except.ok (a1, h1)) => create_symbol_string h1 fuel a1
  | some _ =>
      some (Except.error "Expected CharList, Symbol, Concatenation or Slice.")
  | none => some (Except.error "store error")

/-- The byte-reading loop of `deserialize_byte_buf`. -/
def readByteListLoop (h : List GData) (a : Nat) :
    Nat → Nat → List Nat → Except String (List Nat)
  | 0, _, acc => Except.ok acc
  | k + 1, i, acc =>
    match get_byte_list_item h a i with
    | Except.error e => Except.error e
    | Except.ok b => readByteListLoop h a k (i + 1) (acc ++ [b])

/-- `deserialize_byte_buf`: only a ByteList handle is accepted; its bytes are
read by indexed iteration. -/
def deserialize_byte_buf (h : List GData) (a : Nat) :
    Except String (List Nat) :=
  match h.get? a with
  | some (GData.dByteList _) =>
      match get_byte_list_len h a with
      | Except.error e => Except.error e
      | Except.ok len => readByteListLoop h a len 0 []
  | some _ => Except.error "Expected ByteList"
  | none => Except.error "store error"

/-! ## Decoder: List/Concatenation/Slice resolution -/

/-- The index loop of `gather_list_items`: read `count` items of list `a`
by position starting at `i`. -/
def gatherListLoop (h : List GData) (a : Nat) :
    Nat → Nat → List Nat → Except String (List Nat)
  | 0, _, acc => Except.ok acc
  | k + 1, i, acc =>
    match get_list_item h a i with
    | Except.error e => Except.error e
    | Except.ok item => gatherListLoop h a k (i + 1) (acc ++ [item])

/-- `gather_list_items`: elements of a List handle read by position
`0..length`. -/
def gather_list_items (h : List GData) (a : Nat) : Except String (List Nat) :=
  match get_list_len h a with
  | Except.error e => Except.error e
  | Except.ok len => gatherListLoop h a len 0 []

/-- The loop of `gather_concat_items`: pop a node; a Concatenation pushes its
right child then its left child (so the left pops first); anything else is
recorded as a leaf.  Fuel counts loop iterations; `none` models the
non-termination the source would exhibit on a cyclic heap. -/
def gather_concat_aux (h : List GData) :
    Nat → List Nat → List Nat → Option (Except String (List Nat))
  | _, [], acc => some (Except.ok acc)
  | 0, _ :: _, _ => none
  | f + 1, current :: rest, acc =>
    match h.get? current with
    | none => some (Except.error "store error")
    | some (GData.dConcat left right) =>
        gather_concat_aux h f (left :: right :: rest) acc
    | some _ => gather_concat_aux h f rest (acc ++ [current])

/-- `gather_concat_items`: flatten a Concatenation tree with an explicit
stack seeded with the root. -/
def gather_concat_items (h : List GData) (fuel a : Nat) :
    Option (Except String (List Nat)) :=
  gather_concat_aux h fuel [a] []

/-- The item-resolution part of `ListAccessor::new_with_max`
(`src/deserializer.rs` lines 523-561): List reads positionally,
Concatenation flattens, Slice resolves its source (List or Concatenation
only), reads its Range bounds and keeps the inclusive `[start, end]` index
range (`end < start` gives the empty sequence); any other tag becomes a
one-element sequence holding the handle itself. -/
def list_accessor_items (h : List GData) (fuel a : Nat) :
    Option (Except String (List Nat)) :=
  match h.get? a with
  | none => some (Except.error "store error")
  | some (GData.dList _) => some (gather_list_items h a)
  | some (GData.dConcat _ _) => gather_concat_items h fuel a
  | some (GData.dSlice list_ref range_ref) =>
      match get_data h list_ref with
      | Except.error e => some (Except.error e)
      | Except.ok list_type =>
        match get_range h range_ref with
        | Except.error e => some (Except.error e)
        | Except.ok (start_ref, end_ref) =>
          match get_number h start_ref, get_number h end_ref with
          | Except.error e, _ => some (Except.error e)
          | _, Except.error e => some (Except.error e)
          | Except.ok sn, Except.ok en =>
            match number_to_usize sn, number_to_usize en with
            | Except.error e, _ => some (Except.error e)
            | _, Except.error e => some (Except.error e)
            | Except.ok start, Except.ok stop =>
              match (match list_type with
                     | GData.dList _ => some (gather_list_items h list_ref)
                     | GData.dConcat _ _ => gather_concat_items h fuel list_ref
                     | _ => some (Except.error
                         "Slice cannot be converted to sequence.")) with
              | none => none
              | some (Except.error e) => some (Except.error e)
              | some (Except.ok items) =>
                  if stop < start then some (Except.ok [])
                  else
                    -- ranges are inclusive on both ends: count = end - start + 1
                    some (Except.ok ((items.drop start).take (stop - start + 1)))
  | some _ => some (Except.ok [a])

/-- `ListAccessor::new_with_max`: resolve the items, then fail when more than
`max` items were found.  `max = none` models `ListAccessor::new`'s
`usize::MAX` bound, which a `Vec` length can never exceed.  (The source then
stores the items reversed so `Vec::pop` hands them out front to back; we
keep them in order and consume them head first, the same order.) -/
def new_with_max (h : List GData) (fuel a : Nat) (max : Option Nat) :
    Option (Except String (List Nat)) :=
  match list_accessor_items h fuel a with
  | some (Except.ok items) =>
      match max with
      | some m =>
          if items.length > m then
            some (Except.error "Cannot deserialize list like value.")
          else some (Except.ok items)
      | none => some (Except.ok items)
  | r => r

/-! ## Decoder: enum discriminant splitting -/

/-- The first step of Rust's `str::split("::")` iterator: the segment before
the leftmost `"::"` occurrence, and the remainder after it (`none` when the
separator does not occur). -/
def splitFirst : List Char → List Char × Option (List Char)
  | [] => ([], none)
  | ':' :: ':' :: rest => ([], some rest)
  | c :: rest =>
    let p := splitFirst rest
    (c :: p.1, p.2)

/-- Whether `"::"` occurs in the string. -/
def containsSep : List Char → Bool
  | [] => false
  | ':' :: ':' :: _ => true
  | _ :: rest => containsSep rest

/-- The discriminant split of `EnumAccessor::variant_seed`: split on `"::"`,
drop the first segment, and take the next one as the variant name — a hard
error when the separator is absent. -/
def split_variant (sym : List Char) : Except String (List Char) :=
  match (splitFirst sym).2 with
  | none => Except.error "Could not get enum value from symbols string"
  | some rest => Except.ok (splitFirst rest).1

/-! ## Decoder: shape-directed decoding -/

/-- The requested decode shapes (the serde data model side of a decode call:
one case per `deserialize_*` entry point the claims exercise).  An enum
variant's payload kind is `none` for a unit variant and `some s` for a
newtype variant of payload shape `s`. -/
inductive Shape where
  | sBool
  | sInt
  | sChar
  | sStr
  | sBytes
  | sUnit
  | sUnitStruct (name : List Char)
  | sOption (s : Shape)
  | sSeq (s : Shape)
  | sTuple (ss : List Shape)
  | sMap (vs : Shape)
  | sStruct (name : List Char) (fields : List (List Char × Shape))
  | sEnum (ename : List Char) (variants : List (List Char × Option Shape))

/-- Variant lookup of the derived identifier visitor: the index and payload
kind of the first variant with the given name. -/
def lookupVariant (n : List Char) :
    List (List Char × Option Shape) → Option (Nat × Option Shape)
  | [] => none
  | (vn, k) :: rest =>
    if vn = n then some (0, k)
    else (lookupVariant n rest).map (fun p => (p.1 + 1, p.2))

/-- Field lookup of the derived struct visitor: the shape of the first field
with the given name. -/
def lookupField (n : List Char) :
    List (List Char × Shape) → Option Shape
  | [] => none
  | (fn, s) :: rest => if fn = n then some s else lookupField n rest

mutual

/-- The decoder: given the heap, a requested shape and the focal handle,
produce the structured value.  Each case is the embedding of the matching
`Deserializer`/accessor method of `src/deserializer.rs`; the surrounding
serde `Deserialize` driver (derived visitors) is modelled from the spec's
build-from-visitor contract (structs match fields by name; fixed-arity
tuples read exactly their arity).  Fuel decreases on every nested decode;
`none` models divergence, never a source-level error. -/
def decode (h : List GData) : Nat → Shape → Nat → Option (Except String SValue)
  | 0, _, _ => none
  | f + 1, shape, a =>
    match shape with
    | Shape.sBool =>
        -- deserialize_bool
        match h.get? a with
        | some GData.dTrue => some (Except.ok (SValue.vBool true))
        | some GData.dFalse => some (Except.ok (SValue.vBool false))
        | some _ => some (Except.error "Expected True or False")
        | none => some (Except.error "store error")
    | Shape.sInt =>
        -- deserialize_i*/u* via deserialize_primitive
        match h.get? a with
        | some (GData.dNumber n) => some (Except.ok (SValue.vInt n))
        | some _ => some (Except.error "Expected Number")
        | none => some (Except.error "store error")
    | Shape.sChar =>
        match h.get? a with
        | some (GData.dChar c) => some (Except.ok (SValue.vChar c))
        | some _ => some (Except.error "Expected Char")
        | none => some (Except.error "store error")
    | Shape.sStr =>
        match deserialize_string h f a with
        | none => none
        | some (Except.error e) => some (Except.error e)
        | some (Except.ok s) => some (Except.ok (SValue.vStr s))
    | Shape.sBytes =>
        match deserialize_byte_buf h a with
        | Except.error e => some (Except.error e)
        | Except.ok bs => some (Except.ok (SValue.vBytes bs))
    | Shape.sUnit =>
        -- deserialize_unit
        match h.get? a with
        | some GData.dUnit => some (Except.ok SValue.vUnit)
        | some _ => some (Except.error "Expected Unit")
        | none => some (Except.error "store error")
    | Shape.sUnitStruct name =>
        -- deserialize_unit_struct delegates to deserialize_unit
        match h.get? a with
        | some GData.dUnit => some (Except.ok (SValue.vUnitStruct name))
        | some _ => some (Except.error "Expected Unit")
        | none => some (Except.error "store error")
    | Shape.sOption s =>
        -- deserialize_option: Unit means absence, anything else re-decodes
        -- the same focal handle as the contained type
        match h.get? a with
        | none => some (Except.error "store error")
        | some GData.dUnit => some (Except.ok SValue.vNone)
        | some _ =>
          match decode h f s a with
          | none => none
          | some (Except.error e) => some (Except.error e)
          | some (Except.ok v) => some (Except.ok (SValue.vSome v))
    | Shape.sSeq s =>
        -- deserialize_seq via ListAccessor::new
        match new_with_max h f a none with
        | none => none
        | some (Except.error e) => some (Except.error e)
        | some (Except.ok items) =>
          match decodeMany h f s items with
          | none => none
          | some (Except.error e) => some (Except.error e)
          | some (Except.ok vs) => some (Except.ok (SValue.vSeq vs))
    | Shape.sTuple ss =>
        -- deserialize_tuple via ListAccessor::new_with_max(len)
        match new_with_max h f a (some ss.length) with
        | none => none
        | some (Except.error e) => some (Except.error e)
        | some (Except.ok items) =>
          match decodeTupleElems h f ss items with
          | none => none
          | some (Except.error e) => some (Except.error e)
          | some (Except.ok vs) => some (Except.ok (SValue.vTuple vs))
    | Shape.sMap vs =>
        -- deserialize_map via ListAccessor::new used as MapAccess
        match new_with_max h f a none with
        | none => none
        | some (Except.error e) => some (Except.error e)
        | some (Except.ok items) =>
          match decodeMapEntries h f vs items with
          | none => none
          | some (Except.error e) => some (Except.error e)
          | some (Except.ok es) => some (Except.ok (SValue.vMap es))
    | Shape.sStruct name fields =>
        -- deserialize_struct via ListAccessor::new used as MapAccess
        match new_with_max h f a none with
        | none => none
        | some (Except.error e) => some (Except.error e)
        | some (Except.ok items) =>
          match decodeStructEntries h f fields items with
          | none => none
          | some (Except.error e) => some (Except.error e)
          | some (Except.ok es) => some (Except.ok (SValue.vStruct name es))
    | Shape.sEnum ename variants =>
        -- deserialize_enum via EnumAccessor::variant_seed: a List holds the
        -- discriminant at position 0 and the payload focus at position 1;
        -- a bare Symbol is its own discriminant with itself as focus
        match h.get? a with
        | some (GData.dList _) =>
            match get_list_item h a 0 with
            | Except.error e => some (Except.error e)
            | Except.ok first =>
              match get_list_item h a 1 with
              | Except.error e => some (Except.error e)
              | Except.ok second =>
                  decodeVariant h f ename variants first second
        | some (GData.dSymbol _) => decodeVariant h f ename variants a a
        | some _ => some (Except.error "Expected List or Symbol for variant")
        | none => some (Except.error "store error")

/-- The variant-identification tail of `variant_seed` plus the
`VariantAccess` dispatch: materialize the discriminant as a string, split it
on `"::"`, match the resulting name against the requested variants; a unit
variant is done, a newtype variant decodes the payload focus. -/
def decodeVariant (h : List GData) :
    Nat → List Char → List (List Char × Option Shape) → Nat → Nat →
    Option (Except String SValue)
  | 0, _, _, _, _ => none
  | f + 1, ename, variants, sym_a, payload =>
    match create_symbol_string h f sym_a with
    | none => none
    | some (Except.error e) => some (Except.error e)
    | some (Except.ok sym) =>
      match split_variant sym with
      | Except.error e => some (Except.error e)
      | Except.ok vname =>
        match lookupVariant vname variants with
        | none => some (Except.error "unknown variant")
        | some (idx, none) =>
            some (Except.ok (SValue.vUnitVariant ename vname idx))
        | some (idx, some ps) =>
          match decode h f ps payload with
          | none => none
          | some (Except.error e) => some (Except.error e)
          | some (Except.ok v) =>
              some (Except.ok (SValue.vNewtypeVariant ename vname idx v))

/-- `SeqAccess` driving a sequence: decode every item with the element
shape. -/
def decodeMany (h : List GData) :
    Nat → Shape → List Nat → Option (Except String (List SValue))
  | _, _, [] => some (Except.ok [])
  | 0, _, _ :: _ => none
  | f + 1, s, x :: rest =>
    match decode h f s x with
    | none => none
    | some (Except.error e) => some (Except.error e)
    | some (Except.ok v) =>
      match decodeMany h f s rest with
      | none => none
      | some (Except.error e) => some (Except.error e)
      | some (Except.ok vs) => some (Except.ok (v :: vs))

/-- `SeqAccess` driving a fixed-arity tuple: one item per component shape;
running out of items is the arity error, surplus items are never requested
(the accessor's max check already rejected them). -/
def decodeTupleElems (h : List GData) :
    Nat → List Shape → List Nat → Option (Except String (List SValue))
  | _, [], _ => some (Except.ok [])
  | _, _ :: _, [] => some (Except.error "invalid length")
  | 0, _ :: _, _ :: _ => none
  | f + 1, s :: srest, x :: xrest =>
    match decode h f s x with
    | none => none
    | some (Except.error e) => some (Except.error e)
    | some (Except.ok v) =>
      match decodeTupleElems h f srest xrest with
      | none => none
      | some (Except.error e) => some (Except.error e)
      | some (Except.ok vs) => some (Except.ok (v :: vs))

/-- `MapAccess` driving a map: every item must be a Pair; the key handle is
decoded as a string (`next_key_seed`), the value handle with the value
shape (`next_value_seed`). -/
def decodeMapEntries (h : List GData) :
    Nat → Shape → List Nat → Option (Except String (List (List Char × SValue)))
  | _, _, [] => some (Except.ok [])
  | 0, _, _ :: _ => none
  | f + 1, vs, item :: rest =>
    match get_pair h item with
    | Except.error e => some (Except.error e)
    | Except.ok (k, v) =>
      match deserialize_string h f k with
      | none => none
      | some (Except.error e) => some (Except.error e)
      | some (Except.ok ks) =>
        match decode h f vs v with
        | none => none
        | some (Except.error e) => some (Except.error e)
        | some (Except.ok vv) =>
          match decodeMapEntries h f vs rest with
          | none => none
          | some (Except.error e) => some (Except.error e)
          | some (Except.ok es) => some (Except.ok ((ks, vv) :: es))

/-- `MapAccess` driving a struct: like a map, but the key string
(`deserialize_identifier`) selects the field's shape by name; a key naming
no field reaches the derived visitor's ignored-value path, which this
deserializer leaves unimplemented. -/
def decodeStructEntries (h : List GData) :
    Nat → List (List Char × Shape) → List Nat →
    Option (Except String (List (List Char × SValue)))
  | _, _, [] => some (Except.ok [])
  | 0, _, _ :: _ => none
  | f + 1, fields, item :: rest =>
    match get_pair h item with
    | Except.error e => some (Except.error e)
    | Except.ok (k, v) =>
      match deserialize_string h f k with
      | none => none
      | some (Except.error e) => some (Except.error e)
      | some (Except.ok ks) =>
        match lookupField ks fields with
        | none => some (Except.error "deserialize_ignored_any is not implemented")
        | some fs =>
          match decode h f fs v with
          | none => none
          | some (Except.error e) => some (Except.error e)
          | some (Except.ok vv) =>
            match decodeStructEntries h f fields rest with
            | none => none
            | some (Except.error e) => some (Except.error e)
            | some (Except.ok es) => some (Except.ok ((ks, vv) :: es))

end

/-- The focal handles a fixed-arity tuple decode reads its components from:
the first `len` resolved items in order, an arity error when there are fewer
(`deserialize_tuple` = `ListAccessor::new_with_max(len)` + the derived
tuple visitor requesting exactly `len` elements). -/
def tuple_element_foci : List Nat → Nat → Except String (List Nat)
  | _, 0 => Except.ok []
  | [], _ + 1 => Except.error "invalid length"
  | x :: rest, n + 1 =>
    match tuple_element_foci rest n with
    | Except.error e => Except.error e
    | Except.ok l => Except.ok (x :: l)

/-- `deserialize_tuple` at the focus level: resolve the items with the arity
as the accessor's max, then read exactly `len` component foci. -/
def deserialize_tuple (h : List GData) (fuel a len : Nat) :
    Option (Except String (List Nat)) :=
  match new_with_max h fuel a (some len) with
  | none => none
  | some (Except.error e) => some (Except.error e)
  | some (Except.ok items) => some (tuple_element_foci items len)

/-! ## The decoder's focus stack (`value_stack`) frame discipline

The Rust `value_stack` is a `Vec` pushed/popped at its end; we model it with
the top of the stack at the head of the list.  A nested decode
(`seed.deserialize`) is modelled by its net effect on the stack. -/

/-- `ListAccessor::next_element_seed`: push the element handle, run the seed,
pop it again. -/
def next_element_seed_stack (seedEff : List Nat → List Nat)
    (stack : List Nat) (item : Nat) : List Nat :=
  (seedEff (item :: stack)).tail

/-- `ListAccessor::next_key_seed`: push the key handle, run the seed, pop it,
then push the value handle for the upcoming `next_value_seed`. -/
def next_key_seed_stack (seedEff : List Nat → List Nat)
    (stack : List Nat) (key value : Nat) : List Nat :=
  value :: (seedEff (key :: stack)).tail

/-- `ListAccessor::next_value_seed`: run the seed on the stack set up by
`next_key_seed`, then pop the value handle. -/
def next_value_seed_stack (seedEff : List Nat → List Nat)
    (stack : List Nat) : List Nat :=
  (seedEff stack).tail

/-- Decoding a whole sequence: fold `next_element_seed` over the items. -/
def decode_sequence_stack (seedEff : List Nat → List Nat)
    (stack : List Nat) (items : List Nat) : List Nat :=
  items.foldl (next_element_seed_stack seedEff) stack

/-! ## Predicates used by the theorems -/

/-- Whether a decoder result is a (source-level) error. -/
def isErr {α : Type} : Option (Except String α) → Bool
  | some (Except.error _) => true
  | _ => false

/-- Whether an infallible-store decoder result is an error. -/
def isErrE {α : Type} : Except String α → Bool
  | Except.error _ => true
  | _ => false

/-- Address-descending heaps: every Concatenation cell's children live at
strictly smaller addresses.  Every heap the append-only store builds has
this property, and it rules out the cycles on which the flattening loop
would not terminate. -/
def descHeapAux : Nat → List GData → Bool
  | _, [] => true
  | i, d :: rest =>
    (match d with
     | GData.dConcat l r => decide (l < i) && decide (r < i)
     | _ => true) && descHeapAux (i + 1) rest

def descHeap (h : List GData) : Bool := descHeapAux 0 h

/-- The left-to-right leaf sequence of a Concatenation tree, by fuelled
recursion (the address of a node bounds its tree height on a descending
heap, so `leaves` below always has enough fuel). -/
def leavesAux (h : List GData) : Nat → Nat → List Nat
  | 0, a => [a]
  | f + 1, a =>
    match h.get? a with
    | some (GData.dConcat l r) => leavesAux h f l ++ leavesAux h f r
    | _ => [a]

/-- The left-to-right leaves below handle `a`. -/
def leaves (h : List GData) (a : Nat) : List Nat := leavesAux h (a + 1) a

/-- The number of loop iterations `gather_concat_items` spends on the tree
below a handle (one per node). -/
def costAux (h : List GData) : Nat → Nat → Nat
  | 0, _ => 1
  | f + 1, a =>
    match h.get? a with
    | some (GData.dConcat l r) => 1 + costAux h f l + costAux h f r
    | _ => 1

def cost (h : List GData) (a : Nat) : Nat := costAux h (a + 1) a

/-- Whether a value's default-options encoding is the Unit tag (such values
are indistinguishable from an absent optional on decode). -/
def unitLike : SValue → Bool
  | SValue.vUnit => true
  | SValue.vNone => true
  | SValue.vUnitStruct _ => true
  | SValue.vSome v => unitLike v
  | _ => false

mutual

/-- The values the amended round-trip covers: no data-carrying variants, no
optional whose payload encodes to Unit, and variant name components free of
the `"::"` separator the decoder splits on. -/
def goodValue : SValue → Bool
  | SValue.vBool _ => true
  | SValue.vInt _ => true
  | SValue.vChar _ => true
  | SValue.vStr _ => true
  | SValue.vBytes _ => true
  | SValue.vUnit => true
  | SValue.vUnitStruct _ => true
  | SValue.vNone => true
  | SValue.vSome v => !unitLike v && goodValue v
  | SValue.vSeq items => goodList items
  | SValue.vTuple items => goodList items
  | SValue.vMap entries => goodEntries entries
  | SValue.vStruct _ fields => goodEntries fields
  | SValue.vUnitVariant ename vname _ =>
      !containsSep (ename ++ [':']) && !containsSep vname
  | SValue.vNewtypeVariant _ _ _ _ => false

def goodList : List SValue → Bool
  | [] => true
  | v :: rest => goodValue v && goodList rest

def goodEntries : List (List Char × SValue) → Bool
  | [] => true
  | (_, v) :: rest => goodValue v && goodEntries rest

end

/-- No key occurs twice. -/
def nodupKeys : List (List Char) → Bool
  | [] => true
  | k :: rest => !(rest.contains k) && nodupKeys rest

mutual

/-- Whether a value inhabits a decode shape (what the statically-known Rust
target type guarantees about the value handed to `Serialize`): constructors
line up, a struct's field names match its shape's in order (and the shape's
names are unambiguous), an enum value's variant name resolves in the shape's
variant list exactly at the value's variant index. -/
def hasShape : SValue → Shape → Bool
  | SValue.vBool _, Shape.sBool => true
  | SValue.vInt _, Shape.sInt => true
  | SValue.vChar _, Shape.sChar => true
  | SValue.vStr _, Shape.sStr => true
  | SValue.vBytes _, Shape.sBytes => true
  | SValue.vUnit, Shape.sUnit => true
  | SValue.vUnitStruct n, Shape.sUnitStruct n2 => n == n2
  | SValue.vNone, Shape.sOption _ => true
  | SValue.vSome v, Shape.sOption s => hasShape v s
  | SValue.vSeq items, Shape.sSeq s => hasShapeList items s
  | SValue.vTuple items, Shape.sTuple ss => hasShapeTuple items ss
  | SValue.vMap entries, Shape.sMap vs => hasShapeEntries entries vs
  | SValue.vStruct n fields, Shape.sStruct n2 fshapes =>
      n == n2 && nodupKeys (fshapes.map Prod.fst) && hasShapeFields fields fshapes
  | SValue.vUnitVariant e n i, Shape.sEnum e2 variants =>
      e == e2 &&
      (match lookupVariant n variants with
       | some (j, none) => j == i
       | _ => false)
  | SValue.vNewtypeVariant e n i p, Shape.sEnum e2 variants =>
      e == e2 &&
      (match lookupVariant n variants with
       | some (j, some ps) => j == i && hasShape p ps
       | _ => false)
  | _, _ => false

def hasShapeList : List SValue → Shape → Bool
  | [], _ => true
  | v :: rest, s => hasShape v s && hasShapeList rest s

def hasShapeTuple : List SValue → List Shape → Bool
  | [], [] => true
  | v :: vr, s :: sr => hasShape v s && hasShapeTuple vr sr
  | _, _ => false

def hasShapeEntries : List (List Char × SValue) → Shape → Bool
  | [], _ => true
  | (_, v) :: rest, s => hasShape v s && hasShapeEntries rest s

def hasShapeFields : List (List Char × SValue) → List (List Char × Shape) → Bool
  | [], [] => true
  | (k, v) :: vr, (fk, fs) :: sr =>
      k == fk && hasShape v fs && hasShapeFields vr sr
  | _, _ => false

end

mutual

/-- The default-options encoding relation: handle `a` of heap `h` holds the
value the encoder produces for `v` under unit-value optionals, excluded
struct typing and full variant naming. -/
def Encodes (h : List GData) : Nat → SValue → Prop
  | a, SValue.vBool true => h.get? a = some GData.dTrue
  | a, SValue.vBool false => h.get? a = some GData.dFalse
  | a, SValue.vInt n => h.get? a = some (GData.dNumber n)
  | a, SValue.vChar c => h.get? a = some (GData.dChar c)
  | a, SValue.vStr s => h.get? a = some (GData.dCharList s)
  | a, SValue.vBytes bs => h.get? a = some (GData.dByteList bs)
  | a, SValue.vUnit => h.get? a = some GData.dUnit
  | a, SValue.vUnitStruct _ => h.get? a = some GData.dUnit
  | a, SValue.vNone => h.get? a = some GData.dUnit
  | a, SValue.vSome v => Encodes h a v
  | a, SValue.vSeq items =>
      ∃ es, h.get? a = some (GData.dList es) ∧ EncodesItems h es items
  | a, SValue.vTuple items =>
      ∃ es, h.get? a = some (GData.dList es) ∧ EncodesItems h es items
  | a, SValue.vMap entries =>
      ∃ es, h.get? a = some (GData.dList es) ∧ EncodesEntries h es entries
  | a, SValue.vStruct _ fields =>
      ∃ es, h.get? a = some (GData.dList es) ∧ EncodesEntries h es fields
  | a, SValue.vUnitVariant ename vname _ =>
      h.get? a = some (GData.dSymbol (ename ++ ':' :: ':' :: vname))
  | a, SValue.vNewtypeVariant ename vname _ payload =>
      ∃ pa d va,
        h.get? a = some (GData.dList [(pa, true)]) ∧
        h.get? pa = some (GData.dPair d va) ∧
        h.get? d = some (GData.dSymbol (ename ++ ':' :: ':' :: vname)) ∧
        Encodes h va payload

/-- Pointwise encoding of sequence/tuple elements (flag `false`). -/
def EncodesItems (h : List GData) : List (Nat × Bool) → List SValue → Prop
  | [], [] => True
  | (ea, fl) :: es, v :: vs => fl = false ∧ Encodes h ea v ∧ EncodesItems h es vs
  | _, _ => False

/-- Pointwise encoding of map/struct entries: associative Pair cells whose
key is the entry's symbol. -/
def EncodesEntries (h : List GData) :
    List (Nat × Bool) → List (List Char × SValue) → Prop
  | [], [] => True
  | (ea, fl) :: es, (k, v) :: kvs =>
      fl = true ∧
      (∃ ka va, h.get? ea = some (GData.dPair ka va) ∧
        h.get? ka = some (GData.dSymbol k) ∧ Encodes h va v) ∧
      EncodesEntries h es kvs
  | _, _ => False

end

/-- The contract a single serializer call obeys: it succeeds, only appends
to the heap, leaves every builder stack as it found it, keeps `struct_sym`
populated once it is, and under the unit-value/exclude-typing/full-naming
combination the returned handle encodes the value. -/
def SerializeOutcome (opts : SerOptions) (st : SerState) (v : SValue)
    (a : Nat) (st2 : SerState) : Prop :=
  serializeValue opts st v = some (a, st2) ∧
  (∃ ext, st2.heap = st.heap ++ ext) ∧
  st2.listStack = st.listStack ∧
  st2.charStack = st.charStack ∧
  st2.byteStack = st.byteStack ∧
  (∀ x, st.struct_sym = some x → ∃ y, st2.struct_sym = some y) ∧
  (opts = defaultSerOptions → Encodes st2.heap a v)

/-- Serialization succeeds from every state with the `SerializeOutcome`
contract. -/
def SerializeTotal (opts : SerOptions) (v : SValue) : Prop :=
  ∀ st, ∃ a st2, SerializeOutcome opts st v a st2

/-- One full codec pass from a fresh session: serialize the value, then
decode the returned handle from the resulting heap with the given shape and
fuel. -/
def roundTrip (opts : SerOptions) (v : SValue) (sh : Shape) (f : Nat) :
    Option (Except String SValue) :=
  match serializeValue opts SerState.empty v with
  | none => none
  | some (a, st2) => decode st2.heap f sh a

/-! # Theorems -/

/-! ## Shared string/symbol lemmas -/

theorem containsSep_tail {c : Char} {t : List Char}
    (h : containsSep (c :: t) = false) : containsSep t = false := by
  rw [containsSep.eq_def] at h
  split at h
  · next heq => exact absurd heq (by simp)
  · next => exact absurd h (by simp)
  · next c2 rest heq =>
      injection heq with h1 h2
      subst h2
      exact h

theorem splitFirst_no_sep (s : List Char) (h : containsSep s = false) :
    splitFirst s = (s, none) := by
  induction s using splitFirst.induct with
  | case1 => rfl
  | case2 rest =>
      exact absurd h (by rw [show containsSep (':' :: ':' :: rest) = true from rfl]; simp)
  | case3 c rest hnm ih =>
      rw [splitFirst.eq_def]
      split
      · next heq => exact absurd heq (by simp)
      · next r1 heq =>
          injection heq with h1 h2
          exact absurd h1 (fun hh => hnm r1 hh h2)
      · next c2 r2 heq =>
          injection heq with h1 h2
          subst h1; subst h2
          rw [ih (containsSep_tail h)]

theorem splitFirst_append_sep (p q : List Char)
    (hp : containsSep (p ++ [':']) = false) :
    splitFirst (p ++ ':' :: ':' :: q) = (p, some q) := by
  induction p with
  | nil => rfl
  | cons c p' ih =>
      rw [List.cons_append, splitFirst.eq_def]
      split
      · next heq => exact absurd heq (by simp)
      · next r1 heq =>
          injection heq with h1 h2
          subst h1
          exfalso
          cases p' with
          | nil =>
              exact absurd hp
                (by rw [show containsSep ([':'] ++ [':']) = true from rfl]; simp)
          | cons c2 p'' =>
              rw [List.cons_append] at h2
              injection h2 with h3 _
              subst h3
              exact absurd hp
                (by rw [show containsSep ((':' :: ':' :: p'') ++ [':']) = true from rfl]; simp)
      · next c2 r2 heq =>
          injection heq with h1 h2
          subst h1; subst h2
          have hp' : containsSep (p' ++ [':']) = false := by
            apply containsSep_tail (c := c)
            simpa [List.cons_append] using hp
          rw [ih hp']

theorem readCharListLoop_spec (h : List GData) (a : Nat) (s : List Char)
    (hs : h.get? a = some (GData.dCharList s)) :
    ∀ k i acc, i + k = s.length →
      readCharListLoop h a k i acc = Except.ok (acc ++ s.drop i) := by
  intro k
  induction k with
  | zero =>
      intro i acc hlen
      have : s.drop i = [] := List.drop_eq_nil_of_le (by omega)
      simp [readCharListLoop, this]
  | succ k ih =>
      intro i acc hlen
      have hi : i < s.length := by omega
      have hget : s.get? i = some (s.get ⟨i, hi⟩) := List.get?_eq_get hi
      rw [readCharListLoop, get_char_list_item, hs]
      simp only [hget]
      rw [ih (i + 1) (acc ++ [s.get ⟨i, hi⟩]) (by omega)]
      rw [List.append_assoc]
      congr 1
      rw [List.singleton_append]
      rw [← List.get_drop_eq_drop s i hi]
      rfl

theorem readCharList_spec (h : List GData) (a : Nat) (s : List Char)
    (hs : h.get? a = some (GData.dCharList s)) :
    readCharList h a = Except.ok s := by
  rw [readCharList, get_char_list_len, hs]
  simpa using readCharListLoop_spec h a s hs s.length 0 [] (by omega)

theorem create_symbol_string_symbol (h : List GData) (f a : Nat) (s : List Char)
    (hs : h.get? a = some (GData.dSymbol s)) :
    create_symbol_string h (f + 1) a = some (Except.ok s) := by
  rw [create_symbol_string, add_char_list_from, textOf, hs]
  exact congrArg some
    (readCharList_spec (h ++ [GData.dCharList s]) h.length s (by simp))

/-! ## C7: enum discriminant splitting -/

/-- C7: when decoding an enum from a Symbol discriminant, the symbol's
string is split on `"::"` and the segment after the separator (here `q`,
with the prefix `p` discarded) selects the variant; a discriminant string
with no `"::"` separator is a hard decode error. -/
theorem c7_enum_discriminant_split
    (h1 h2 : List GData) (a1 a2 f i : Nat) (ename s p q : List Char)
    (variants : List (List Char × Option Shape))
    (hsym1 : h1.get? a1 = some (GData.dSymbol s))
    (hnosep : containsSep s = false)
    (hsym2 : h2.get? a2 = some (GData.dSymbol (p ++ ':' :: ':' :: q)))
    (hp : containsSep (p ++ [':']) = false)
    (hq : containsSep q = false)
    (hv : lookupVariant q variants = some (i, none)) :
    isErr (decode h1 (f + 3) (Shape.sEnum ename variants) a1) = true ∧
    decode h2 (f + 3) (Shape.sEnum ename variants) a2 =
      some (Except.ok (SValue.vUnitVariant ename q i)) := by
  constructor
  · rw [decode.eq_def]
    simp only [hsym1]
    rw [decodeVariant.eq_def]
    rw [show f + 2 = Nat.succ (f + 1) from rfl]
    simp only [create_symbol_string_symbol h1 f a1 s hsym1, split_variant,
      splitFirst_no_sep s hnosep, isErr]
  · rw [decode.eq_def]
    simp only [hsym2]
    rw [decodeVariant.eq_def]
    rw [show f + 2 = Nat.succ (f + 1) from rfl]
    simp only [create_symbol_string_symbol h2 f a2 _ hsym2, split_variant,
      splitFirst_append_sep p q hp, splitFirst_no_sep q hq, hv]

/-- Witness for C7 at a concrete heap: `"NoSeparator"` fails,
`"SomeEnum::SomeUnitVariant"` decodes to the variant with the prefix
discarded. -/
theorem c7_enum_discriminant_split_witness :
    isErr (decode [GData.dSymbol "NoSeparator".data] 3
      (Shape.sEnum "SomeEnum".data [("SomeUnitVariant".data, none)]) 0) = true ∧
    decode [GData.dSymbol "SomeEnum::SomeUnitVariant".data] 3
      (Shape.sEnum "SomeEnum".data [("SomeUnitVariant".data, none)]) 0 =
      some (Except.ok (SValue.vUnitVariant "SomeEnum".data
        "SomeUnitVariant".data 0)) :=
  c7_enum_discriminant_split
    [GData.dSymbol "NoSeparator".data]
    [GData.dSymbol "SomeEnum::SomeUnitVariant".data]
    0 0 0 0 "SomeEnum".data "NoSeparator".data "SomeEnum".data
    "SomeUnitVariant".data [("SomeUnitVariant".data, none)]
    (by rfl) (by decide) (by rfl) (by decide) (by decide) (by rfl)

/-! ## C9: the focus stack is restored around element and entry decodes -/

/-- C9: with any stack-neutral nested decodes (a completed seed decode
returns the stack as it found it), `next_element_seed` restores the focus
stack, a `next_key_seed` followed by its `next_value_seed` restores it, and
decoding a whole sequence of items leaves the stack exactly as it was when
the accessor was created. -/
theorem c9_value_stack_restored
    (stack : List Nat) (item key value : Nat) (items : List Nat)
    (s1 s2 s3 s4 : List Nat → List Nat)
    (h1 : ∀ l, s1 l = l) (h2 : ∀ l, s2 l = l) (h3 : ∀ l, s3 l = l)
    (h4 : ∀ l, s4 l = l) :
    next_element_seed_stack s1 stack item = stack ∧
    next_value_seed_stack s3 (next_key_seed_stack s2 stack key value) = stack ∧
    decode_sequence_stack s4 stack items = stack := by
  refine ⟨?_, ?_, ?_⟩
  · rw [next_element_seed_stack, h1]
    rfl
  · rw [next_key_seed_stack, next_value_seed_stack, h2, h3]
    rfl
  · rw [decode_sequence_stack]
    induction items generalizing stack with
    | nil => rfl
    | cons x rest ih =>
        rw [List.foldl_cons, next_element_seed_stack, h4]
        exact ih stack

/-! ## Shared list-resolution lemmas -/

theorem number_to_usize_ofNat (n : Nat) :
    number_to_usize (Int.ofNat n) = Except.ok n := by
  rw [number_to_usize]
  simp only [Int.ofNat_eq_natCast]
  rw [if_neg (by omega)]
  simp

theorem gatherListLoop_spec (h : List GData) (a : Nat) (es : List (Nat × Bool))
    (hs : h.get? a = some (GData.dList es)) :
    ∀ k i acc, i + k = es.length →
      gatherListLoop h a k i acc = Except.ok (acc ++ (es.drop i).map Prod.fst) := by
  intro k
  induction k with
  | zero =>
      intro i acc hlen
      have : es.drop i = [] := List.drop_eq_nil_of_le (by omega)
      simp [gatherListLoop, this]
  | succ k ih =>
      intro i acc hlen
      have hi : i < es.length := by omega
      have hget : es.get? i = some (es.get ⟨i, hi⟩) := List.get?_eq_get hi
      rw [gatherListLoop, get_list_item, hs]
      simp only [hget]
      rw [ih (i + 1) (acc ++ [(es.get ⟨i, hi⟩).1]) (by omega)]
      rw [List.append_assoc]
      congr 1
      rw [List.singleton_append]
      rw [← List.get_drop_eq_drop es i hi]
      rfl

theorem gather_list_items_spec (h : List GData) (a : Nat) (es : List (Nat × Bool))
    (hs : h.get? a = some (GData.dList es)) :
    gather_list_items h a = Except.ok (es.map Prod.fst) := by
  rw [gather_list_items, get_list_len, hs]
  simpa using gatherListLoop_spec h a es hs es.length 0 [] (by omega)

theorem tuple_element_foci_exact (items : List Nat) :
    tuple_element_foci items items.length = Except.ok items := by
  induction items with
  | nil => rfl
  | cons x rest ih => rw [List.length_cons, tuple_element_foci, ih]

theorem tuple_element_foci_short (items : List Nat) (n : Nat)
    (hlt : items.length < n) :
    tuple_element_foci items n = Except.error "invalid length" := by
  induction items generalizing n with
  | nil =>
      cases n with
      | zero => omega
      | succ m => rfl
  | cons x rest ih =>
      cases n with
      | zero => omega
      | succ m =>
          rw [tuple_element_foci, ih m (by simpa using hlt)]

/-! ## C6: tuple arity -/

/-- C6: decoding an `n`-tuple from a List focal handle succeeds exactly when
the list has `n` items, the component foci being the list's items in
position order; any other length (too many or too few) is an error. -/
theorem c6_tuple_arity (h : List GData) (a f n : Nat) (es : List (Nat × Bool))
    (hs : h.get? a = some (GData.dList es)) :
    (es.length = n →
      deserialize_tuple h f a n = some (Except.ok (es.map Prod.fst))) ∧
    (es.length ≠ n → isErr (deserialize_tuple h f a n) = true) := by
  have hitems : list_accessor_items h f a = some (Except.ok (es.map Prod.fst)) := by
    rw [list_accessor_items]
    simp only [hs, gather_list_items_spec h a es hs]
  constructor
  · intro hn
    rw [deserialize_tuple, new_with_max, hitems]
    have hlen : (es.map Prod.fst).length = n := by simpa using hn
    simp only [gt_iff_lt, hlen, lt_irrefl, if_false]
    rw [← hlen, tuple_element_foci_exact]
  · intro hn
    rw [deserialize_tuple, new_with_max, hitems]
    by_cases hgt : (es.map Prod.fst).length > n
    · simp only [if_pos hgt]
      rfl
    · have hlt : (es.map Prod.fst).length < n := by
        simp only [List.length_map] at hgt ⊢
        omega
      simp only [if_neg hgt, tuple_element_foci_short _ n hlt]
      rfl

/-- Witness for C6: a 2-item List decodes as a 2-tuple positionally, and
fails as a 3-tuple and as a 1-tuple. -/
theorem c6_tuple_arity_witness :
    deserialize_tuple [GData.dNumber 1, GData.dNumber 2,
      GData.dList [(0, false), (1, false)]] 0 2 2 =
        some (Except.ok [0, 1]) ∧
    isErr (deserialize_tuple [GData.dNumber 1, GData.dNumber 2,
      GData.dList [(0, false), (1, false)]] 0 2 3) = true ∧
    isErr (deserialize_tuple [GData.dNumber 1, GData.dNumber 2,
      GData.dList [(0, false), (1, false)]] 0 2 1) = true :=
  ⟨(c6_tuple_arity [GData.dNumber 1, GData.dNumber 2,
      GData.dList [(0, false), (1, false)]] 2 0 2
      [(0, false), (1, false)] (by rfl)).1 rfl,
   (c6_tuple_arity [GData.dNumber 1, GData.dNumber 2,
      GData.dList [(0, false), (1, false)]] 2 0 3
      [(0, false), (1, false)] (by rfl)).2 (by decide),
   (c6_tuple_arity [GData.dNumber 1, GData.dNumber 2,
      GData.dList [(0, false), (1, false)]] 2 0 1
      [(0, false), (1, false)] (by rfl)).2 (by decide)⟩

/-! ## C5 and C10: Slice resolution -/

theorem descHeapAux_spec : ∀ (t : List GData) (n : Nat), descHeapAux n t = true →
    ∀ k l r, t.get? k = some (GData.dConcat l r) → l < n + k ∧ r < n + k := by
  intro t
  induction t with
  | nil => intro n _ k l r hk; simp at hk
  | cons d rest ih =>
      intro n hd k l r hk
      rw [descHeapAux.eq_def] at hd
      dsimp only at hd
      rw [Bool.and_eq_true] at hd
      obtain ⟨hd1, hd2⟩ := hd
      cases k with
      | zero =>
          simp only [List.get?] at hk
          injection hk with hk
          subst hk
          simp only [decide_eq_true_eq, Bool.and_eq_true] at hd1
          omega
      | succ k2 =>
          simp only [List.get?] at hk
          have := ih (n + 1) hd2 k2 l r hk
          omega

theorem descHeap_spec (h : List GData) (hd : descHeap h = true) :
    ∀ a l r, h.get? a = some (GData.dConcat l r) → l < a ∧ r < a := by
  intro a l r hk
  have := descHeapAux_spec h 0 hd a l r hk
  omega

theorem leavesAux_stable (h : List GData) (hd : descHeap h = true) :
    ∀ a f1 f2, a < f1 → a < f2 → leavesAux h f1 a = leavesAux h f2 a := by
  intro a
  induction a using Nat.strong_induction_on with
  | _ a ih =>
    intro f1 f2 h1 h2
    obtain ⟨g1, rfl⟩ : ∃ g1, f1 = g1 + 1 := ⟨f1 - 1, by omega⟩
    obtain ⟨g2, rfl⟩ : ∃ g2, f2 = g2 + 1 := ⟨f2 - 1, by omega⟩
    rw [leavesAux, leavesAux]
    cases hcell : h.get? a with
    | none => rfl
    | some d =>
      cases d
      case dConcat l r =>
        obtain ⟨hl, hr⟩ := descHeap_spec h hd a l r hcell
        dsimp only
        rw [ih l hl g1 g2 (by omega) (by omega), ih r hr g1 g2 (by omega) (by omega)]
      all_goals rfl

theorem costAux_stable (h : List GData) (hd : descHeap h = true) :
    ∀ a f1 f2, a < f1 → a < f2 → costAux h f1 a = costAux h f2 a := by
  intro a
  induction a using Nat.strong_induction_on with
  | _ a ih =>
    intro f1 f2 h1 h2
    obtain ⟨g1, rfl⟩ : ∃ g1, f1 = g1 + 1 := ⟨f1 - 1, by omega⟩
    obtain ⟨g2, rfl⟩ : ∃ g2, f2 = g2 + 1 := ⟨f2 - 1, by omega⟩
    rw [costAux, costAux]
    cases hcell : h.get? a with
    | none => rfl
    | some d =>
      cases d
      case dConcat l r =>
        obtain ⟨hl, hr⟩ := descHeap_spec h hd a l r hcell
        dsimp only
        rw [ih l hl g1 g2 (by omega) (by omega), ih r hr g1 g2 (by omega) (by omega)]
      all_goals rfl

theorem cost_pos (h : List GData) : ∀ f a, 1 ≤ costAux h f a := by
  intro f a
  cases f with
  | zero => simp [costAux]
  | succ g =>
      rw [costAux]
      cases h.get? a with
      | none => dsimp only; omega
      | some d => cases d <;> (dsimp only; omega)

theorem cost_concat (h : List GData) (hd : descHeap h = true) (a l r : Nat)
    (hc : h.get? a = some (GData.dConcat l r)) :
    cost h a = 1 + cost h l + cost h r := by
  obtain ⟨hl, hr⟩ := descHeap_spec h hd a l r hc
  rw [cost, costAux, hc]
  dsimp only
  rw [show costAux h a l = cost h l from
        costAux_stable h hd l a (l + 1) (by omega) (by omega),
      show costAux h a r = cost h r from
        costAux_stable h hd r a (r + 1) (by omega) (by omega)]

theorem leaves_concat (h : List GData) (hd : descHeap h = true) (a l r : Nat)
    (hc : h.get? a = some (GData.dConcat l r)) :
    leaves h a = leaves h l ++ leaves h r := by
  obtain ⟨hl, hr⟩ := descHeap_spec h hd a l r hc
  rw [leaves, leavesAux, hc]
  dsimp only
  rw [show leavesAux h a l = leaves h l from
        leavesAux_stable h hd l a (l + 1) (by omega) (by omega),
      show leavesAux h a r = leaves h r from
        leavesAux_stable h hd r a (r + 1) (by omega) (by omega)]

theorem leaves_leaf (h : List GData) (a : Nat) (d : GData)
    (hcell : h.get? a = some d)
    (hnc : ∀ l r, d ≠ GData.dConcat l r) : leaves h a = [a] := by
  rw [leaves, leavesAux, hcell]
  cases d
  case dConcat l r => exact absurd rfl (hnc l r)
  all_goals rfl

theorem gather_concat_aux_spec (h : List GData) (hd : descHeap h = true) :
    ∀ f st acc, (∀ x ∈ st, x < h.length) → ((st.map (cost h)).sum ≤ f) →
      gather_concat_aux h f st acc =
        some (Except.ok (acc ++ (st.map (leaves h)).flatten)) := by
  intro f
  induction f with
  | zero =>
      intro st acc hb hc
      cases st with
      | nil => simp [gather_concat_aux]
      | cons x rest =>
          exfalso
          have h1 : 1 ≤ cost h x := cost_pos h (x + 1) x
          simp only [List.map_cons, List.sum_cons] at hc
          omega
  | succ f ih =>
      intro st acc hb hc
      cases st with
      | nil => simp [gather_concat_aux]
      | cons x rest =>
          have hx : x < h.length := hb x (List.mem_cons_self x rest)
          obtain ⟨d, hcell⟩ : ∃ d, h.get? x = some d := by
            rw [List.get?_eq_get hx]
            exact ⟨_, rfl⟩
          rw [gather_concat_aux, hcell]
          cases d
          case dConcat l r =>
            obtain ⟨hl, hr⟩ := descHeap_spec h hd x l r hcell
            dsimp only
            rw [ih (l :: r :: rest) acc
              (by
                intro y hy
                rcases List.mem_cons.mp hy with rfl | hy2
                · omega
                rcases List.mem_cons.mp hy2 with rfl | hy3
                · omega
                · exact hb y (List.mem_cons_of_mem x hy3))
              (by
                simp only [List.map_cons, List.sum_cons] at hc ⊢
                rw [cost_concat h hd x l r hcell] at hc
                omega)]
            simp [leaves_concat h hd x l r hcell, List.append_assoc]
          all_goals {
            dsimp only
            rw [ih rest (acc ++ [x])
              (fun y hy => hb y (List.mem_cons_of_mem x hy))
              (by
                have h1 : 1 ≤ cost h x := cost_pos h (x + 1) x
                simp only [List.map_cons, List.sum_cons] at hc
                omega)]
            simp [leaves_leaf h x _ hcell (by intro l r hne; cases hne),
              List.append_assoc]
          }

theorem leaves_no_concat (h : List GData) (hd : descHeap h = true) :
    ∀ a, ∀ x ∈ leaves h a, ∀ l r, h.get? x ≠ some (GData.dConcat l r) := by
  intro a
  induction a using Nat.strong_induction_on with
  | _ a ih =>
    intro x hx l r hne
    cases hga : h.get? a with
    | none =>
        rw [leaves, leavesAux, hga] at hx
        simp at hx
        subst hx
        rw [hne] at hga
        cases hga
    | some d =>
      cases d
      case dConcat l0 r0 =>
        obtain ⟨hl, hr⟩ := descHeap_spec h hd a l0 r0 hga
        rw [leaves_concat h hd a l0 r0 hga] at hx
        rcases List.mem_append.mp hx with hx1 | hx2
        · exact ih l0 hl x hx1 l r hne
        · exact ih r0 hr x hx2 l r hne
      all_goals {
        rw [leaves_leaf h a _ hga (by intro u v hh; cases hh)] at hx
        simp at hx
        subst hx
        rw [hne] at hga
        cases hga
      }

theorem slice_list_items (h : List GData) (f a src rng sref eref start stop : Nat)
    (es : List (Nat × Bool))
    (hs : h.get? a = some (GData.dSlice src rng))
    (hsrc : h.get? src = some (GData.dList es))
    (hr : h.get? rng = some (GData.dRange sref eref))
    (hsn : h.get? sref = some (GData.dNumber (Int.ofNat start)))
    (hen : h.get? eref = some (GData.dNumber (Int.ofNat stop))) :
    list_accessor_items h f a =
      some (if stop < start then Except.ok []
            else Except.ok (((es.map Prod.fst).drop start).take (stop - start + 1))) := by
  rw [list_accessor_items]
  simp only [hs, get_data, hsrc, get_range, hr, get_number, hsn, hen,
    number_to_usize_ofNat, gather_list_items_spec h src es hsrc]
  split
  · rfl
  · rfl

theorem slice_concat_items (h : List GData)
    (f a src rng sref eref start stop l0 r0 : Nat)
    (hd : descHeap h = true) (hsb : src < h.length)
    (hs : h.get? a = some (GData.dSlice src rng))
    (hsrc : h.get? src = some (GData.dConcat l0 r0))
    (hr : h.get? rng = some (GData.dRange sref eref))
    (hsn : h.get? sref = some (GData.dNumber (Int.ofNat start)))
    (hen : h.get? eref = some (GData.dNumber (Int.ofNat stop)))
    (hf : cost h src ≤ f) :
    list_accessor_items h f a =
      some (if stop < start then Except.ok []
            else Except.ok (((leaves h src).drop start).take (stop - start + 1))) := by
  have hg : gather_concat_items h f src = some (Except.ok (leaves h src)) := by
    rw [gather_concat_items]
    rw [gather_concat_aux_spec h hd f [src] []
      (by intro y hy; simp at hy; omega)
      (by simpa using hf)]
    simp
  rw [list_accessor_items]
  simp only [hs, get_data, hsrc, get_range, hr, get_number, hsn, hen,
    number_to_usize_ofNat, hg]
  split
  · rfl
  · rfl

theorem slice_resolved_items (h : List GData)
    (f a src rng sref eref start stop : Nat) (xs : List Nat)
    (hs : h.get? a = some (GData.dSlice src rng))
    (hsrc : (∃ es, h.get? src = some (GData.dList es) ∧ xs = es.map Prod.fst) ∨
            (∃ l0 r0, h.get? src = some (GData.dConcat l0 r0) ∧
              descHeap h = true ∧ src < h.length ∧ cost h src ≤ f ∧
              xs = leaves h src))
    (hr : h.get? rng = some (GData.dRange sref eref))
    (hsn : h.get? sref = some (GData.dNumber (Int.ofNat start)))
    (hen : h.get? eref = some (GData.dNumber (Int.ofNat stop))) :
    new_with_max h f a none =
      some (if stop < start then Except.ok []
            else Except.ok ((xs.drop start).take (stop - start + 1))) := by
  rcases hsrc with ⟨es, hsrc, hxs⟩ | ⟨l0, r0, hsrc, hd, hsb, hf, hxs⟩ <;> subst hxs
  · by_cases hc : stop < start
    · rw [if_pos hc, new_with_max,
        slice_list_items h f a src rng sref eref start stop es hs hsrc hr hsn hen,
        if_pos hc]
    · rw [if_neg hc, new_with_max,
        slice_list_items h f a src rng sref eref start stop es hs hsrc hr hsn hen,
        if_neg hc]
  · by_cases hc : stop < start
    · rw [if_pos hc, new_with_max,
        slice_concat_items h f a src rng sref eref start stop l0 r0
          hd hsb hs hsrc hr hsn hen hf,
        if_pos hc]
    · rw [if_neg hc, new_with_max,
        slice_concat_items h f a src rng sref eref start stop l0 r0
          hd hsb hs hsrc hr hsn hen hf,
        if_neg hc]

/-- C5 (amended): a Slice whose source resolves to a List or to a
Concatenation (flattened on a descending heap with enough fuel) with items
`xs` and Range bounds `[start, stop]` resolves to the empty sequence when
`stop < start`, and otherwise to the items of `xs` at the inclusive index
range `[start, stop]` — exactly `stop − start + 1` items whenever `stop` is
within bounds (an out-of-bounds `stop` silently truncates, see C10); a
Slice whose source tag is neither List nor Concatenation fails with an
error. -/
theorem c5_slice_resolution
    (h h2 : List GData) (f f2 a a2 src rng sref eref start stop : Nat)
    (src2 rng2 sref2 eref2 start2 stop2 : Nat) (d2 : GData)
    (xs : List Nat)
    (hs : h.get? a = some (GData.dSlice src rng))
    (hsrc : (∃ es, h.get? src = some (GData.dList es) ∧ xs = es.map Prod.fst) ∨
            (∃ l0 r0, h.get? src = some (GData.dConcat l0 r0) ∧
              descHeap h = true ∧ src < h.length ∧ cost h src ≤ f ∧
              xs = leaves h src))
    (hr : h.get? rng = some (GData.dRange sref eref))
    (hsn : h.get? sref = some (GData.dNumber (Int.ofNat start)))
    (hen : h.get? eref = some (GData.dNumber (Int.ofNat stop)))
    (hs2 : h2.get? a2 = some (GData.dSlice src2 rng2))
    (hsrc2 : h2.get? src2 = some d2)
    (hnl : ∀ es2, d2 ≠ GData.dList es2)
    (hnc : ∀ l r, d2 ≠ GData.dConcat l r)
    (hr2 : h2.get? rng2 = some (GData.dRange sref2 eref2))
    (hsn2 : h2.get? sref2 = some (GData.dNumber (Int.ofNat start2)))
    (hen2 : h2.get? eref2 = some (GData.dNumber (Int.ofNat stop2))) :
    (stop < start → new_with_max h f a none = some (Except.ok [])) ∧
    (start ≤ stop → stop < xs.length →
      new_with_max h f a none =
        some (Except.ok ((xs.drop start).take (stop - start + 1))) ∧
      ((xs.drop start).take (stop - start + 1)).length = stop - start + 1) ∧
    isErr (new_with_max h2 f2 a2 none) = true := by
  refine ⟨?_, ?_, ?_⟩
  · intro hlt
    have hres := slice_resolved_items h f a src rng sref eref start stop xs
      hs hsrc hr hsn hen
    rw [if_pos hlt] at hres
    exact hres
  · intro hle hin
    have hres := slice_resolved_items h f a src rng sref eref start stop xs
      hs hsrc hr hsn hen
    rw [if_neg (by omega)] at hres
    refine ⟨hres, ?_⟩
    simp only [List.length_take, List.length_drop]
    omega
  · rw [new_with_max, list_accessor_items]
    simp only [hs2, get_data, hsrc2, get_range, hr2, get_number, hsn2, hen2,
      number_to_usize_ofNat]
    cases d2 with
    | dList es2 => exact absurd rfl (hnl es2)
    | dConcat l r => exact absurd rfl (hnc l r)
    | dUnit => rfl
    | dTrue => rfl
    | dFalse => rfl
    | dNumber n => rfl
    | dChar c => rfl
    | dCharList s => rfl
    | dByteList bs => rfl
    | dSymbol s => rfl
    | dPair k v => rfl
    | dRange x y => rfl
    | dSlice x y => rfl

/-- Counterexample to C5 as stated: a Slice of a 1-item List with bounds
`[0, 2]` (so `start ≤ end`) resolves to a single item, not to
`end − start + 1 = 3` items. -/
theorem c5_slice_count_counterexample :
    new_with_max [GData.dNumber 5, GData.dList [(0, false)], GData.dNumber 0,
      GData.dNumber 2, GData.dRange 2 3, GData.dSlice 1 4] 0 5 none =
      some (Except.ok [0]) ∧
    ([0] : List Nat).length ≠ 2 - 0 + 1 :=
  ⟨rfl, by decide⟩

/-- Witness for C5 (amended) at concrete heaps: a 3-item List sliced
`[1, 2]` yields the two items at positions 1 and 2; bounds `[2, 1]` yield
the empty sequence; a Concatenation source with leaves `0, 1, 2` sliced
`[1, 2]` yields its last two leaves; a CharList-sourced slice fails. -/
theorem c5_slice_resolution_witness :
    new_with_max [GData.dNumber 100, GData.dNumber 200, GData.dNumber 300,
      GData.dList [(0, false), (1, false), (2, false)], GData.dNumber 1,
      GData.dNumber 2, GData.dRange 4 5, GData.dSlice 3 6] 0 7 none =
      some (Except.ok [1, 2]) ∧
    new_with_max [GData.dNumber 100, GData.dNumber 200, GData.dNumber 300,
      GData.dList [(0, false), (1, false), (2, false)], GData.dNumber 2,
      GData.dNumber 1, GData.dRange 4 5, GData.dSlice 3 6] 0 7 none =
      some (Except.ok []) ∧
    new_with_max [GData.dNumber 100, GData.dNumber 200, GData.dNumber 300,
      GData.dConcat 0 1, GData.dConcat 3 2, GData.dNumber 1, GData.dNumber 2,
      GData.dRange 5 6, GData.dSlice 4 7] 5 8 none =
      some (Except.ok [1, 2]) ∧
    isErr (new_with_max [GData.dCharList "abcd".data, GData.dNumber 1,
      GData.dNumber 2, GData.dRange 1 2, GData.dSlice 0 3] 0 4 none) = true := by
  refine ⟨?_, ?_, ?_, ?_⟩
  · exact ((c5_slice_resolution
      [GData.dNumber 100, GData.dNumber 200, GData.dNumber 300,
        GData.dList [(0, false), (1, false), (2, false)], GData.dNumber 1,
        GData.dNumber 2, GData.dRange 4 5, GData.dSlice 3 6]
      [GData.dCharList "abcd".data, GData.dNumber 1, GData.dNumber 2,
        GData.dRange 1 2, GData.dSlice 0 3]
      0 0 7 4 3 6 4 5 1 2 0 3 1 2 1 2 (GData.dCharList "abcd".data)
      [0, 1, 2]
      (by rfl)
      (Or.inl ⟨[(0, false), (1, false), (2, false)], by rfl, by rfl⟩)
      (by rfl) (by rfl) (by rfl) (by rfl) (by rfl)
      (fun es2 => by simp) (fun l r => by simp)
      (by rfl) (by rfl) (by rfl)).2.1 (by decide) (by decide)).1
  · exact (c5_slice_resolution
      [GData.dNumber 100, GData.dNumber 200, GData.dNumber 300,
        GData.dList [(0, false), (1, false), (2, false)], GData.dNumber 2,
        GData.dNumber 1, GData.dRange 4 5, GData.dSlice 3 6]
      [GData.dCharList "abcd".data, GData.dNumber 1, GData.dNumber 2,
        GData.dRange 1 2, GData.dSlice 0 3]
      0 0 7 4 3 6 4 5 2 1 0 3 1 2 1 2 (GData.dCharList "abcd".data)
      [0, 1, 2]
      (by rfl)
      (Or.inl ⟨[(0, false), (1, false), (2, false)], by rfl, by rfl⟩)
      (by rfl) (by rfl) (by rfl) (by rfl) (by rfl)
      (fun es2 => by simp) (fun l r => by simp)
      (by rfl) (by rfl) (by rfl)).1 (by decide)
  · exact ((c5_slice_resolution
      [GData.dNumber 100, GData.dNumber 200, GData.dNumber 300,
        GData.dConcat 0 1, GData.dConcat 3 2, GData.dNumber 1, GData.dNumber 2,
        GData.dRange 5 6, GData.dSlice 4 7]
      [GData.dCharList "abcd".data, GData.dNumber 1, GData.dNumber 2,
        GData.dRange 1 2, GData.dSlice 0 3]
      5 0 8 4 4 7 5 6 1 2 0 3 1 2 1 2 (GData.dCharList "abcd".data)
      [0, 1, 2]
      (by rfl)
      (Or.inr ⟨3, 2, by rfl, by decide, by decide, by decide, by rfl⟩)
      (by rfl) (by rfl) (by rfl) (by rfl) (by rfl)
      (fun es2 => by simp) (fun l r => by simp)
      (by rfl) (by rfl) (by rfl)).2.1 (by decide) (by decide)).1
  · exact (c5_slice_resolution
      [GData.dNumber 100, GData.dNumber 200, GData.dNumber 300,
        GData.dList [(0, false), (1, false), (2, false)], GData.dNumber 1,
        GData.dNumber 2, GData.dRange 4 5, GData.dSlice 3 6]
      [GData.dCharList "abcd".data, GData.dNumber 1, GData.dNumber 2,
        GData.dRange 1 2, GData.dSlice 0 3]
      0 0 7 4 3 6 4 5 1 2 0 3 1 2 1 2 (GData.dCharList "abcd".data)
      [0, 1, 2]
      (by rfl)
      (Or.inl ⟨[(0, false), (1, false), (2, false)], by rfl, by rfl⟩)
      (by rfl) (by rfl) (by rfl) (by rfl) (by rfl)
      (fun es2 => by simp) (fun l r => by simp)
      (by rfl) (by rfl) (by rfl)).2.2

/-- C10: when a Slice's end bound is at least the number of flattened items
of its source (a List, or a Concatenation flattened on a descending heap
with enough fuel; `start` in bounds and `start ≤ end`), resolution does not
raise an out-of-range error: it silently yields the items from `start` to
the end of the source — fewer than `end − start + 1` of them. -/
theorem c10_slice_end_overflow
    (h : List GData) (f a src rng sref eref start stop : Nat)
    (xs : List Nat)
    (hs : h.get? a = some (GData.dSlice src rng))
    (hsrc : (∃ es, h.get? src = some (GData.dList es) ∧ xs = es.map Prod.fst) ∨
            (∃ l0 r0, h.get? src = some (GData.dConcat l0 r0) ∧
              descHeap h = true ∧ src < h.length ∧ cost h src ≤ f ∧
              xs = leaves h src))
    (hr : h.get? rng = some (GData.dRange sref eref))
    (hsn : h.get? sref = some (GData.dNumber (Int.ofNat start)))
    (hen : h.get? eref = some (GData.dNumber (Int.ofNat stop)))
    (hse : start ≤ stop) (hlen : xs.length ≤ stop) (hsb : start < xs.length) :
    new_with_max h f a none = some (Except.ok (xs.drop start)) ∧
    (xs.drop start).length < stop - start + 1 := by
  have hres := slice_resolved_items h f a src rng sref eref start stop xs
    hs hsrc hr hsn hen
  rw [if_neg (by omega)] at hres
  constructor
  · rw [hres, List.take_of_length_le (by simp only [List.length_drop]; omega)]
  · simp only [List.length_drop]
    omega

/-- Witness for C10: the 1-item List sliced `[0, 2]` yields its single item
without error, and a 2-leaf Concatenation sliced `[0, 5]` yields its two
leaves without error. -/
theorem c10_slice_end_overflow_witness :
    new_with_max [GData.dNumber 5, GData.dList [(0, false)], GData.dNumber 0,
      GData.dNumber 2, GData.dRange 2 3, GData.dSlice 1 4] 0 5 none =
      some (Except.ok [0]) ∧
    ([0] : List Nat).length < 2 - 0 + 1 ∧
    new_with_max [GData.dNumber 100, GData.dNumber 200, GData.dConcat 0 1,
      GData.dNumber 0, GData.dNumber 5, GData.dRange 3 4, GData.dSlice 2 5]
      3 6 none = some (Except.ok [0, 1]) ∧
    ([0, 1] : List Nat).length < 5 - 0 + 1 := by
  have h1 := c10_slice_end_overflow
    [GData.dNumber 5, GData.dList [(0, false)], GData.dNumber 0,
      GData.dNumber 2, GData.dRange 2 3, GData.dSlice 1 4]
    0 5 1 4 2 3 0 2 [0]
    (by rfl) (Or.inl ⟨[(0, false)], by rfl, by rfl⟩)
    (by rfl) (by rfl) (by rfl)
    (by decide) (by decide) (by decide)
  have h2 := c10_slice_end_overflow
    [GData.dNumber 100, GData.dNumber 200, GData.dConcat 0 1,
      GData.dNumber 0, GData.dNumber 5, GData.dRange 3 4, GData.dSlice 2 5]
    3 6 2 5 3 4 0 5 [0, 1]
    (by rfl) (Or.inr ⟨0, 1, by rfl, by decide, by decide, by decide, by rfl⟩)
    (by rfl) (by rfl) (by rfl)
    (by decide) (by decide) (by decide)
  exact ⟨h1.1, by simpa using h1.2, h2.1, by simpa using h2.2⟩

/-! ## C4: Concatenation flattening -/

/-- C4: on an address-descending heap the flattening routine
(`gather_concat_items`, the explicit stack where the right child is pushed
before the left one) returns exactly the left-to-right leaf sequence of the
Concatenation tree, and none of the returned handles is itself a
Concatenation. -/
theorem c4_gather_concat_items (h : List GData) (f a l0 r0 : Nat)
    (hd : descHeap h = true) (ha : a < h.length)
    (hc : h.get? a = some (GData.dConcat l0 r0)) (hf : cost h a ≤ f) :
    gather_concat_items h f a = some (Except.ok (leaves h a)) ∧
    leaves h a = leaves h l0 ++ leaves h r0 ∧
    ∀ x ∈ leaves h a, ∀ l r, h.get? x ≠ some (GData.dConcat l r) := by
  refine ⟨?_, leaves_concat h hd a l0 r0 hc, leaves_no_concat h hd a⟩
  rw [gather_concat_items]
  rw [gather_concat_aux_spec h hd f [a] []
    (by intro y hy; simp at hy; omega)
    (by simpa using hf)]
  simp

/-- Witness for C4: both association orders flatten to `[a, b, c]` —
`flatten(concat(concat(a,b),c))` and `flatten(concat(a,concat(b,c)))` give
the leaves `0, 1, 2` in left-to-right order. -/
theorem c4_gather_concat_items_witness :
    gather_concat_items [GData.dNumber 100, GData.dNumber 200,
      GData.dNumber 300, GData.dConcat 0 1, GData.dConcat 3 2] 5 4 =
      some (Except.ok [0, 1, 2]) ∧
    gather_concat_items [GData.dNumber 100, GData.dNumber 200,
      GData.dNumber 300, GData.dConcat 1 2, GData.dConcat 0 3] 5 4 =
      some (Except.ok [0, 1, 2]) := by
  constructor
  · rw [(c4_gather_concat_items [GData.dNumber 100, GData.dNumber 200,
      GData.dNumber 300, GData.dConcat 0 1, GData.dConcat 3 2] 5 4 3 2
      (by decide) (by decide) (by rfl) (by decide)).1]
    rfl
  · rw [(c4_gather_concat_items [GData.dNumber 100, GData.dNumber 200,
      GData.dNumber 300, GData.dConcat 1 2, GData.dConcat 0 3] 5 4 0 3
      (by decide) (by decide) (by rfl) (by decide)).1]
    rfl

/-- Witness for C9 with the identity seed effect on a concrete stack. -/
theorem c9_value_stack_restored_witness :
    next_element_seed_stack id [7] 3 = [7] ∧
    next_value_seed_stack id (next_key_seed_stack id [7] 4 5) = [7] ∧
    decode_sequence_stack id [7] [1, 2, 3] = [7] :=
  c9_value_stack_restored [7] 3 4 5 [1, 2, 3] id id id id
    (fun _ => rfl) (fun _ => rfl) (fun _ => rfl) (fun _ => rfl)

/-! ## C8: string and byte-buffer tag acceptance -/

theorem create_symbol_string_charlist (h : List GData) (f a : Nat) (s : List Char)
    (hs : h.get? a = some (GData.dCharList s)) :
    create_symbol_string h (f + 1) a = some (Except.ok s) := by
  rw [create_symbol_string, add_char_list_from, textOf, hs]
  exact congrArg some
    (readCharList_spec (h ++ [GData.dCharList s]) h.length s (by simp))

theorem readByteListLoop_spec (h : List GData) (a : Nat) (bs : List Nat)
    (hs : h.get? a = some (GData.dByteList bs)) :
    ∀ k i acc, i + k = bs.length →
      readByteListLoop h a k i acc = Except.ok (acc ++ bs.drop i) := by
  intro k
  induction k with
  | zero =>
      intro i acc hlen
      have : bs.drop i = [] := List.drop_eq_nil_of_le (by omega)
      simp [readByteListLoop, this]
  | succ k ih =>
      intro i acc hlen
      have hi : i < bs.length := by omega
      have hget : bs.get? i = some (bs.get ⟨i, hi⟩) := List.get?_eq_get hi
      rw [readByteListLoop, get_byte_list_item, hs]
      simp only [hget]
      rw [ih (i + 1) (acc ++ [bs.get ⟨i, hi⟩]) (by omega)]
      rw [List.append_assoc]
      congr 1
      rw [List.singleton_append]
      rw [← List.get_drop_eq_drop bs i hi]
      rfl

theorem deserialize_string_charlist (h : List GData) (f a : Nat) (s : List Char)
    (hs : h.get? a = some (GData.dCharList s)) :
    deserialize_string h f a = some (Except.ok s) := by
  rw [deserialize_string.eq_def]
  simp only [hs]
  exact congrArg some (readCharList_spec h a s hs)

theorem deserialize_string_realized (h : List GData) (f a : Nat) (cs : List Char)
    (htag : (∃ s, h.get? a = some (GData.dSymbol s)) ∨
            (∃ l r, h.get? a = some (GData.dConcat l r)) ∨
            (∃ src rng, h.get? a = some (GData.dSlice src rng)))
    (htext : textOf h (f + 1) a = some (Except.ok cs)) :
    deserialize_string h (f + 1) a = some (Except.ok cs) := by
  have hmain : add_char_list_from h (f + 1) a =
      some (Except.ok (h.length, h ++ [GData.dCharList cs])) := by
    rw [add_char_list_from, htext]
  rcases htag with ⟨s, hs⟩ | ⟨l, r, hs⟩ | ⟨src, rng, hs⟩ <;>
    (rw [deserialize_string.eq_def]
     simp only [hs, hmain]
     exact create_symbol_string_charlist _ f h.length cs (by simp))

theorem c8_string_and_byte_tags (h : List GData) (f a : Nat) :
    (∀ s, h.get? a = some (GData.dCharList s) →
        deserialize_string h f a = some (Except.ok s)) ∧
    (∀ s, h.get? a = some (GData.dSymbol s) →
        deserialize_string h (f + 1) a = some (Except.ok s)) ∧
    (∀ cs, ((∃ l r, h.get? a = some (GData.dConcat l r)) ∨
            (∃ src rng, h.get? a = some (GData.dSlice src rng))) →
        textOf h (f + 1) a = some (Except.ok cs) →
        deserialize_string h (f + 1) a = some (Except.ok cs)) ∧
    (∀ d, h.get? a = some d →
        (∀ s, d ≠ GData.dCharList s) → (∀ s, d ≠ GData.dSymbol s) →
        (∀ l r, d ≠ GData.dConcat l r) → (∀ x y, d ≠ GData.dSlice x y) →
        isErr (deserialize_string h f a) = true) ∧
    (∀ bs, h.get? a = some (GData.dByteList bs) →
        deserialize_byte_buf h a = Except.ok bs) ∧
    (∀ d, h.get? a = some d → (∀ bs, d ≠ GData.dByteList bs) →
        isErrE (deserialize_byte_buf h a) = true) := by
  refine ⟨?_, ?_, ?_, ?_, ?_, ?_⟩
  · intro s hs
    exact deserialize_string_charlist h f a s hs
  · intro s hs
    exact deserialize_string_realized h f a s (Or.inl ⟨s, hs⟩)
      (by rw [textOf, hs])
  · intro cs htag htext
    exact deserialize_string_realized h f a cs (Or.inr htag) htext
  · intro d hd hn1 hn2 hn3 hn4
    rw [deserialize_string.eq_def]
    simp only [hd]
    cases d
    case dCharList s => exact absurd rfl (hn1 s)
    case dSymbol s => exact absurd rfl (hn2 s)
    case dConcat l r => exact absurd rfl (hn3 l r)
    case dSlice x y => exact absurd rfl (hn4 x y)
    all_goals rfl
  · intro bs hbs
    rw [deserialize_byte_buf.eq_def]
    simp only [hbs]
    rw [get_byte_list_len, hbs]
    simpa using readByteListLoop_spec h a bs hbs bs.length 0 [] (by omega)
  · intro d hd hnb
    rw [deserialize_byte_buf.eq_def]
    simp only [hd]
    cases d
    case dByteList bs => exact absurd rfl (hnb bs)
    all_goals rfl

/-- Witness for C8: a CharList, a Symbol, a Concatenation of CharLists and a
Slice of a CharList all decode as strings (the realized text); a Number does
not; a ByteList decodes as a byte buffer and a Number does not. -/
theorem c8_string_and_byte_tags_witness :
    deserialize_string [GData.dCharList "ab".data] 1 0 =
      some (Except.ok "ab".data) ∧
    deserialize_string [GData.dSymbol "sym".data] 1 0 =
      some (Except.ok "sym".data) ∧
    deserialize_string [GData.dCharList "ab".data, GData.dCharList "cd".data,
      GData.dConcat 0 1] 2 2 = some (Except.ok "abcd".data) ∧
    deserialize_string [GData.dCharList "abcd".data, GData.dNumber 1,
      GData.dNumber 2, GData.dRange 1 2, GData.dSlice 0 3] 2 4 =
      some (Except.ok "bc".data) ∧
    isErr (deserialize_string [GData.dNumber 7] 1 0) = true ∧
    deserialize_byte_buf [GData.dByteList [1, 2, 3]] 0 =
      Except.ok [1, 2, 3] ∧
    isErrE (deserialize_byte_buf [GData.dNumber 7] 0) = true := by
  refine ⟨?_, ?_, ?_, ?_, ?_, ?_, ?_⟩
  · exact (c8_string_and_byte_tags [GData.dCharList "ab".data] 1 0).1
      "ab".data (by rfl)
  · exact (c8_string_and_byte_tags [GData.dSymbol "sym".data] 0 0).2.1
      "sym".data (by rfl)
  · exact (c8_string_and_byte_tags [GData.dCharList "ab".data,
      GData.dCharList "cd".data, GData.dConcat 0 1] 1 2).2.2.1
      "abcd".data (Or.inl ⟨0, 1, by rfl⟩) (by rfl)
  · exact (c8_string_and_byte_tags [GData.dCharList "abcd".data,
      GData.dNumber 1, GData.dNumber 2, GData.dRange 1 2,
      GData.dSlice 0 3] 1 4).2.2.1
      "bc".data (Or.inr ⟨0, 3, by rfl⟩) (by rfl)
  · exact (c8_string_and_byte_tags [GData.dNumber 7] 1 0).2.2.2.1
      (GData.dNumber 7) (by rfl)
      (fun s => by simp) (fun s => by simp) (fun l r => by simp)
      (fun x y => by simp)
  · exact (c8_string_and_byte_tags [GData.dByteList [1, 2, 3]] 0 0).2.2.2.2.1
      [1, 2, 3] (by rfl)
  · exact (c8_string_and_byte_tags [GData.dNumber 7] 0 0).2.2.2.2.2
      (GData.dNumber 7) (by rfl) (fun bs => by simp)

/-! ## C3: the serializer constructor's optional-policy default -/

theorem get?_append_len {α : Type} (A B : List α) (i : Nat) :
    (A ++ B).get? (A.length + i) = B.get? i := by
  rw [List.get?_append_right (by omega)]
  congr 1
  omega

theorem c3_optional_defaults (st : SerState) (v : SValue) :
    Options.GarnishSerializationOptions.new.optional_behavior =
      Options.OptionalBehavior.UnitValue ∧
    GarnishDataSerializer.newOptions.optional_behavior =
      Serializer.OptionalBehavior.Pair ∧
    (∃ a st', serializeValue GarnishDataSerializer.newOptions st SValue.vNone =
        some (a, st') ∧
      ∃ ka ua, st'.heap.get? a = some (GData.dPair ka ua) ∧
        st'.heap.get? ka = some (GData.dSymbol "none".data) ∧
        st'.heap.get? ua = some GData.dUnit) ∧
    (∃ a st', serializeValue defaultSerOptions st SValue.vNone = some (a, st') ∧
        st'.heap.get? a = some GData.dUnit) ∧
    (∀ a st', serializeValue defaultSerOptions st v = some (a, st') →
        serializeValue defaultSerOptions st (SValue.vSome v) = some (a, st')) ∧
    (∀ a st', serializeValue GarnishDataSerializer.newOptions st v = some (a, st') →
        ∃ p st'', serializeValue GarnishDataSerializer.newOptions st
            (SValue.vSome v) = some (p, st'') ∧
          ∃ sa, st''.heap.get? p = some (GData.dPair sa a) ∧
            st''.heap.get? sa = some (GData.dSymbol "some".data)) := by
  refine ⟨rfl, rfl, ?_, ?_, ?_, ?_⟩
  · have hkey : serializeValue GarnishDataSerializer.newOptions st SValue.vNone =
        some (st.heap.length + 2,
          { st with heap := ((st.heap ++ [GData.dUnit]) ++
              [GData.dSymbol "none".data]) ++
              [GData.dPair (st.heap.length + 1) st.heap.length] }) := by
      rw [serializeValue]
      simp [add_unit, addData, parse_add_symbol, add_pair, GarnishDataSerializer.newOptions]
    refine ⟨st.heap.length + 2, _, hkey, st.heap.length + 1, st.heap.length,
      ?_, ?_, ?_⟩
    · have := get?_append_len
        ((st.heap ++ [GData.dUnit]) ++ [GData.dSymbol "none".data])
        [GData.dPair (st.heap.length + 1) st.heap.length] 0
      simpa using this
    · rw [List.get?_append (by simp)]
      have := get?_append_len (st.heap ++ [GData.dUnit])
        [GData.dSymbol "none".data] 0
      simpa using this
    · rw [List.get?_append (by simp), List.get?_append (by simp)]
      have := get?_append_len st.heap [GData.dUnit] 0
      simpa using this
  · have hkey : serializeValue defaultSerOptions st SValue.vNone =
        some (st.heap.length, { st with heap := st.heap ++ [GData.dUnit] }) := by
      rw [serializeValue]
      simp [add_unit, addData, defaultSerOptions]
    exact ⟨st.heap.length, _, hkey,
      by simpa using get?_append_len st.heap [GData.dUnit] 0⟩
  · intro a st2 hser
    rw [serializeValue, hser]
    rfl
  · intro a st2 hser
    have hkey : serializeValue GarnishDataSerializer.newOptions st
        (SValue.vSome v) =
        some (st2.heap.length + 1,
          { st2 with heap := (st2.heap ++ [GData.dSymbol "some".data]) ++
              [GData.dPair st2.heap.length a] }) := by
      rw [serializeValue, hser]
      simp [parse_add_symbol, addData, add_pair, GarnishDataSerializer.newOptions]
    refine ⟨st2.heap.length + 1, _, hkey, st2.heap.length, ?_, ?_⟩
    · have := get?_append_len (st2.heap ++ [GData.dSymbol "some".data])
        [GData.dPair st2.heap.length a] 0
      simpa using this
    · rw [List.get?_append (by simp)]
      have := get?_append_len st2.heap [GData.dSymbol "some".data] 0
      simpa using this

/-- Counterexample to C3 as stated: a serializer constructed by
`GarnishDataSerializer::new` (no option set) serializes `None` to
`Pair(Symbol "none", Unit)`, not to a Unit handle. -/
theorem c3_optional_default_counterexample :
    serializeValue GarnishDataSerializer.newOptions SerState.empty SValue.vNone =
      some (2, { heap := [GData.dUnit, GData.dSymbol "none".data,
                   GData.dPair 1 0],
                 listStack := [], charStack := [], byteStack := [],
                 struct_sym := none, pending_key := none }) ∧
    GData.dPair 1 0 ≠ GData.dUnit :=
  ⟨by decide, by decide⟩

/-- Witness for C3 (amended) at concrete inputs: under the unit-value policy
`Some(100)` serializes to exactly the encoding of `100`. -/
theorem c3_optional_defaults_witness :
    serializeValue defaultSerOptions SerState.empty
      (SValue.vSome (SValue.vInt 100)) =
      some (0, { heap := [GData.dNumber 100], listStack := [], charStack := [],
                 byteStack := [], struct_sym := none, pending_key := none }) :=
  (c3_optional_defaults SerState.empty (SValue.vInt 100)).2.2.2.2.1 0
    { heap := [GData.dNumber 100], listStack := [], charStack := [],
      byteStack := [], struct_sym := none, pending_key := none }
    (by decide)

/-! ## C2: the serialized form of a data-carrying variant -/

theorem get?_append_cons {α : Type} (A : List α) (x : α) (B : List α) :
    (A ++ x :: B).get? A.length = some x := by
  rw [List.get?_append_right (le_refl _)]
  simp

theorem c2_newtype_variant_format
    (opts : SerOptions) (st st3 : SerState) (ename vname : List Char)
    (idx val : Nat) (payload : SValue)
    (hser : serializeValue opts
        (serialize_unit_variant opts (start_list st) ename idx vname).2
        payload = some (val, st3))
    (hframe : st3.listStack = [] :: st.listStack)
    (hext : ∃ ext, st3.heap =
        (serialize_unit_variant opts (start_list st) ename idx vname).2.heap ++ ext) :
    ∃ st4, serializeValue opts st
        (SValue.vNewtypeVariant ename vname idx payload) =
        some (st3.heap.length + 1, st4) ∧
      st4.heap.get? (st3.heap.length + 1) =
        some (GData.dList [(st3.heap.length,
          opts.variant_name_behavior != Serializer.VariantNameBehavior.Index)]) ∧
      st4.heap.get? st3.heap.length =
        some (GData.dPair
          (serialize_unit_variant opts (start_list st) ename idx vname).1 val) ∧
      st4.heap.get? (serialize_unit_variant opts (start_list st) ename idx vname).1 =
        some (match opts.variant_name_behavior with
              | Serializer.VariantNameBehavior.Short => GData.dSymbol vname
              | Serializer.VariantNameBehavior.Full =>
                  GData.dSymbol (ename ++ ':' :: ':' :: vname)
              | Serializer.VariantNameBehavior.Index =>
                  GData.dNumber (Int.ofNat idx)) := by
  obtain ⟨ext, hx⟩ := hext
  rw [serializeValue]
  simp only [hser]
  simp only [add_pair, addData, add_to_list, hframe]
  simp only [end_list, addData]
  refine ⟨{ st3 with
      heap := (st3.heap ++ [GData.dPair
          (serialize_unit_variant opts (start_list st) ename idx vname).1 val]) ++
        [GData.dList [(st3.heap.length,
          opts.variant_name_behavior != Serializer.VariantNameBehavior.Index)]],
      listStack := st.listStack }, ?_, ?_, ?_, ?_⟩
  · simp [List.length_append]
  · have := get?_append_len
      (st3.heap ++ [GData.dPair
        (serialize_unit_variant opts (start_list st) ename idx vname).1 val])
      [GData.dList [(st3.heap.length,
        opts.variant_name_behavior != Serializer.VariantNameBehavior.Index)]] 0
    simpa using this
  · rw [List.get?_append (by simp)]
    have := get?_append_len st3.heap
      [GData.dPair (serialize_unit_variant opts (start_list st) ename idx vname).1 val] 0
    simpa using this
  · have hsymlt : (serialize_unit_variant opts (start_list st) ename idx vname).1 =
        st.heap.length := by
      cases hb : opts.variant_name_behavior <;>
        simp [serialize_unit_variant, hb, parse_add_symbol, addData, start_list]
    cases hb : opts.variant_name_behavior with
    | Short =>
        have hcell : (serialize_unit_variant opts (start_list st) ename idx vname).2.heap =
            st.heap ++ [GData.dSymbol vname] := by
          simp [serialize_unit_variant, hb, parse_add_symbol, addData, start_list]
        rw [hsymlt, List.get?_append (by rw [hx, hcell]; simp),
          List.get?_append (by rw [hx, hcell]; simp), hx, hcell]
        rw [List.append_assoc]
        simp only [List.singleton_append]
        rw [get?_append_cons]
    | Full =>
        have hcell : (serialize_unit_variant opts (start_list st) ename idx vname).2.heap =
            st.heap ++ [GData.dSymbol (ename ++ ':' :: ':' :: vname)] := by
          simp [serialize_unit_variant, hb, parse_add_symbol, addData, start_list]
        rw [hsymlt, List.get?_append (by rw [hx, hcell]; simp),
          List.get?_append (by rw [hx, hcell]; simp), hx, hcell]
        rw [List.append_assoc]
        simp only [List.singleton_append]
        rw [get?_append_cons]
    | Index =>
        have hcell : (serialize_unit_variant opts (start_list st) ename idx vname).2.heap =
            st.heap ++ [GData.dNumber (Int.ofNat idx)] := by
          simp [serialize_unit_variant, hb, addData, start_list]
        rw [hsymlt, List.get?_append (by rw [hx, hcell]; simp),
          List.get?_append (by rw [hx, hcell]; simp), hx, hcell]
        rw [List.append_assoc]
        simp only [List.singleton_append]
        rw [get?_append_cons]

/-- Counterexample to C2 as stated: the serializer encodes a newtype variant
as a List with exactly ONE element — a Pair holding the discriminant and the
payload — not as a 2-element List whose first element is the discriminant. -/
theorem c2_newtype_variant_counterexample :
    serializeValue defaultSerOptions SerState.empty
      (SValue.vNewtypeVariant "E".data "N".data 1 (SValue.vInt 5)) =
      some (3, { heap := [GData.dSymbol "E::N".data, GData.dNumber 5,
                   GData.dPair 0 1, GData.dList [(2, true)]],
                 listStack := [], charStack := [], byteStack := [],
                 struct_sym := none, pending_key := none }) ∧
    ([(2, true)] : List (Nat × Bool)).length ≠ 2 :=
  ⟨by decide, by decide⟩

/-- Witness for C2 (amended) at a concrete input under full naming. -/
theorem c2_newtype_variant_format_witness :
    ∃ st4, serializeValue defaultSerOptions SerState.empty
        (SValue.vNewtypeVariant "E".data "N".data 1 (SValue.vInt 5)) =
        some (3, st4) ∧
      st4.heap.get? 3 = some (GData.dList [(2, true)]) ∧
      st4.heap.get? 2 = some (GData.dPair 0 1) ∧
      st4.heap.get? 0 = some (GData.dSymbol "E::N".data) := by
  have h := c2_newtype_variant_format defaultSerOptions SerState.empty
    { heap := [GData.dSymbol "E::N".data, GData.dNumber 5],
      listStack := [[]], charStack := [], byteStack := [],
      struct_sym := none, pending_key := none }
    "E".data "N".data 1 1 (SValue.vInt 5)
    (by decide) (by decide) ⟨[GData.dNumber 5], by decide⟩
  obtain ⟨st4, h1, h2, h3, h4⟩ := h
  exact ⟨st4, h1, h2, h3, h4⟩

theorem get?_extend {α : Type} {h : List α} {a : Nat} {d : α} (ext : List α)
    (hg : h.get? a = some d) : (h ++ ext).get? a = some d := by
  obtain ⟨hlt, _⟩ := List.get?_eq_some.mp hg
  rw [List.get?_append hlt]
  exact hg

theorem sizeOf_mem_lt {v : SValue} {l : List SValue} (hm : v ∈ l) :
    sizeOf v < sizeOf l := List.sizeOf_lt_of_mem hm

example : Encodes [] 0 SValue.vUnit ↔ ([] : List GData).get? 0 = some GData.dUnit := by
  rw [Encodes]

example (h : List GData) (a : Nat) (items : List SValue) :
    Encodes h a (SValue.vSeq items) ↔
      ∃ es, h.get? a = some (GData.dList es) ∧ EncodesItems h es items := by
  rw [Encodes]

theorem Encodes_extend_bounded :
    ∀ n v, sizeOf v ≤ n → ∀ (h ext : List GData) (a : Nat),
      Encodes h a v → Encodes (h ++ ext) a v := by
  intro n
  induction n using Nat.strong_induction_on with
  | _ n ih =>
    intro v hn h ext a he
    cases v with
    | vBool b =>
        cases b <;> (rw [Encodes] at he ⊢; exact get?_extend ext he)
    | vInt m => rw [Encodes] at he ⊢; exact get?_extend ext he
    | vChar c => rw [Encodes] at he ⊢; exact get?_extend ext he
    | vStr s => rw [Encodes] at he ⊢; exact get?_extend ext he
    | vBytes bs => rw [Encodes] at he ⊢; exact get?_extend ext he
    | vUnit => rw [Encodes] at he ⊢; exact get?_extend ext he
    | vUnitStruct nm => rw [Encodes] at he ⊢; exact get?_extend ext he
    | vNone => rw [Encodes] at he ⊢; exact get?_extend ext he
    | vSome w =>
        rw [Encodes] at he ⊢
        have hw : sizeOf w < n := by
          have : sizeOf w < sizeOf (SValue.vSome w) := by simp
          omega
        exact ih (sizeOf w) hw w (le_refl _) h ext a he
    | vSeq items =>
        rw [Encodes] at he ⊢
        obtain ⟨es, hget, hitems⟩ := he
        refine ⟨es, get?_extend ext hget, ?_⟩
        have hlt : sizeOf items < n := by
          have : sizeOf items < sizeOf (SValue.vSeq items) := by simp
          omega
        clear hget hn
        induction items generalizing es with
        | nil =>
            cases es with
            | nil => rw [EncodesItems] at hitems ⊢; exact hitems
            | cons e es2 => rw [EncodesItems.eq_def] at hitems; dsimp only at hitems
        | cons x rest ihl =>
            cases es with
            | nil => rw [EncodesItems.eq_def] at hitems; dsimp only at hitems
            | cons e es2 =>
                obtain ⟨ea, fl⟩ := e
                rw [EncodesItems] at hitems ⊢
                obtain ⟨hfl, hx, hrest⟩ := hitems
                refine ⟨hfl, ?_, ?_⟩
                · have hxs : sizeOf x < n := by
                    rw [List.cons.sizeOf_spec] at hlt
                    omega
                  exact ih (sizeOf x) hxs x (le_refl _) h ext ea hx
                · exact ihl es2 hrest (by rw [List.cons.sizeOf_spec] at hlt; omega)
    | vTuple items =>
        rw [Encodes] at he ⊢
        obtain ⟨es, hget, hitems⟩ := he
        refine ⟨es, get?_extend ext hget, ?_⟩
        have hlt : sizeOf items < n := by
          have : sizeOf items < sizeOf (SValue.vTuple items) := by simp
          omega
        clear hget hn
        induction items generalizing es with
        | nil =>
            cases es with
            | nil => rw [EncodesItems] at hitems ⊢; exact hitems
            | cons e es2 => rw [EncodesItems.eq_def] at hitems; dsimp only at hitems
        | cons x rest ihl =>
            cases es with
            | nil => rw [EncodesItems.eq_def] at hitems; dsimp only at hitems
            | cons e es2 =>
                obtain ⟨ea, fl⟩ := e
                rw [EncodesItems] at hitems ⊢
                obtain ⟨hfl, hx, hrest⟩ := hitems
                refine ⟨hfl, ?_, ?_⟩
                · have hxs : sizeOf x < n := by
                    rw [List.cons.sizeOf_spec] at hlt
                    omega
                  exact ih (sizeOf x) hxs x (le_refl _) h ext ea hx
                · exact ihl es2 hrest (by rw [List.cons.sizeOf_spec] at hlt; omega)
    | vMap entries =>
        rw [Encodes] at he ⊢
        obtain ⟨es, hget, hitems⟩ := he
        refine ⟨es, get?_extend ext hget, ?_⟩
        have hlt : sizeOf entries < n := by
          have : sizeOf entries < sizeOf (SValue.vMap entries) := by simp
          omega
        clear hget hn
        induction entries generalizing es with
        | nil =>
            cases es with
            | nil => rw [EncodesEntries] at hitems ⊢; exact hitems
            | cons e es2 => rw [EncodesEntries.eq_def] at hitems; dsimp only at hitems
        | cons x rest ihl =>
            cases es with
            | nil => rw [EncodesEntries.eq_def] at hitems; dsimp only at hitems
            | cons e es2 =>
                obtain ⟨ea, fl⟩ := e
                obtain ⟨k, v⟩ := x
                rw [EncodesEntries] at hitems ⊢
                obtain ⟨hfl, ⟨ka, va, hpair, hsym, hv⟩, hrest⟩ := hitems
                refine ⟨hfl, ⟨ka, va, get?_extend ext hpair, get?_extend ext hsym, ?_⟩, ?_⟩
                · have hvs : sizeOf v < n := by
                    rw [List.cons.sizeOf_spec, Prod.mk.sizeOf_spec] at hlt
                    omega
                  exact ih (sizeOf v) hvs v (le_refl _) h ext va hv
                · exact ihl es2 hrest (by rw [List.cons.sizeOf_spec] at hlt; omega)
    | vStruct nm fields =>
        rw [Encodes] at he ⊢
        obtain ⟨es, hget, hitems⟩ := he
        refine ⟨es, get?_extend ext hget, ?_⟩
        have hlt : sizeOf fields < n := by
          have : sizeOf fields < sizeOf (SValue.vStruct nm fields) := by simp
          omega
        clear hget hn
        induction fields generalizing es with
        | nil =>
            cases es with
            | nil => rw [EncodesEntries] at hitems ⊢; exact hitems
            | cons e es2 => rw [EncodesEntries.eq_def] at hitems; dsimp only at hitems
        | cons x rest ihl =>
            cases es with
            | nil => rw [EncodesEntries.eq_def] at hitems; dsimp only at hitems
            | cons e es2 =>
                obtain ⟨ea, fl⟩ := e
                obtain ⟨k, v⟩ := x
                rw [EncodesEntries] at hitems ⊢
                obtain ⟨hfl, ⟨ka, va, hpair, hsym, hv⟩, hrest⟩ := hitems
                refine ⟨hfl, ⟨ka, va, get?_extend ext hpair, get?_extend ext hsym, ?_⟩, ?_⟩
                · have hvs : sizeOf v < n := by
                    rw [List.cons.sizeOf_spec, Prod.mk.sizeOf_spec] at hlt
                    omega
                  exact ih (sizeOf v) hvs v (le_refl _) h ext va hv
                · exact ihl es2 hrest (by rw [List.cons.sizeOf_spec] at hlt; omega)
    | vUnitVariant e nm i => rw [Encodes] at he ⊢; exact get?_extend ext he
    | vNewtypeVariant e nm i p =>
        rw [Encodes] at he ⊢
        obtain ⟨pa, d, va, h1, h2, h3, h4⟩ := he
        refine ⟨pa, d, va, get?_extend ext h1, get?_extend ext h2,
          get?_extend ext h3, ?_⟩
        have hp : sizeOf p < n := by
          have : sizeOf p < sizeOf (SValue.vNewtypeVariant e nm i p) := by simp
          omega
        exact ih (sizeOf p) hp p (le_refl _) h ext va h4

theorem Encodes_extend {v : SValue} {h : List GData} {a : Nat} (ext : List GData)
    (he : Encodes h a v) : Encodes (h ++ ext) a v :=
  Encodes_extend_bounded (sizeOf v) v (le_refl _) h ext a he

theorem EncodesItems_extend {h ext : List GData} :
    ∀ {es : List (Nat × Bool)} {items : List SValue},
      EncodesItems h es items → EncodesItems (h ++ ext) es items := by
  intro es
  induction es with
  | nil =>
      intro items hi
      cases items with
      | nil => rw [EncodesItems] at hi ⊢; exact hi
      | cons v vs => rw [EncodesItems.eq_def] at hi; dsimp only at hi
  | cons e es2 ih =>
      intro items hi
      obtain ⟨ea, fl⟩ := e
      cases items with
      | nil => rw [EncodesItems.eq_def] at hi; dsimp only at hi
      | cons v vs =>
          rw [EncodesItems] at hi ⊢
          exact ⟨hi.1, Encodes_extend ext hi.2.1, ih hi.2.2⟩

theorem EncodesEntries_extend {h ext : List GData} :
    ∀ {es : List (Nat × Bool)} {entries : List (List Char × SValue)},
      EncodesEntries h es entries → EncodesEntries (h ++ ext) es entries := by
  intro es
  induction es with
  | nil =>
      intro entries hi
      cases entries with
      | nil => rw [EncodesEntries] at hi ⊢; exact hi
      | cons kv kvs => rw [EncodesEntries.eq_def] at hi; dsimp only at hi
  | cons e es2 ih =>
      intro entries hi
      obtain ⟨ea, fl⟩ := e
      cases entries with
      | nil => rw [EncodesEntries.eq_def] at hi; dsimp only at hi
      | cons kv kvs =>
          obtain ⟨k, v⟩ := kv
          rw [EncodesEntries] at hi ⊢
          obtain ⟨hfl, ⟨ka, va, hp, hsym, hv⟩, hrest⟩ := hi
          exact ⟨hfl, ⟨ka, va, get?_extend ext hp, get?_extend ext hsym,
            Encodes_extend ext hv⟩, ih hrest⟩

theorem fold_char_spec : ∀ (s : List Char) (st : SerState)
    (cur : List Char) (rest : List (List Char)),
    st.charStack = cur :: rest →
    s.foldlM add_to_char_list st =
      some { st with charStack := (cur ++ s) :: rest } := by
  intro s
  induction s with
  | nil =>
      intro st cur rest hst
      rw [List.foldlM_nil, List.append_nil, ← hst]
      rfl
  | cons c cs ih =>
      intro st cur rest hst
      rw [List.foldlM_cons]
      rw [show add_to_char_list st c =
        some { st with charStack := (cur ++ [c]) :: rest } by
          rw [add_to_char_list, hst]]
      simp only [bind, Option.bind]
      rw [ih { st with charStack := (cur ++ [c]) :: rest } (cur ++ [c]) rest rfl]
      simp [List.append_assoc]

theorem fold_byte_spec : ∀ (bs : List Nat) (st : SerState)
    (cur : List Nat) (rest : List (List Nat)),
    st.byteStack = cur :: rest →
    bs.foldlM add_to_byte_list st =
      some { st with byteStack := (cur ++ bs) :: rest } := by
  intro bs
  induction bs with
  | nil =>
      intro st cur rest hst
      rw [List.foldlM_nil, List.append_nil, ← hst]
      rfl
  | cons b bs2 ih =>
      intro st cur rest hst
      rw [List.foldlM_cons]
      rw [show add_to_byte_list st b =
        some { st with byteStack := (cur ++ [b]) :: rest } by
          rw [add_to_byte_list, hst]]
      simp only [bind, Option.bind]
      rw [ih { st with byteStack := (cur ++ [b]) :: rest } (cur ++ [b]) rest rfl]
      simp [List.append_assoc]

theorem serialize_str_spec (st : SerState) (s : List Char) :
    serialize_str st s =
      some (st.heap.length, { st with heap := st.heap ++ [GData.dCharList s] }) := by
  rw [serialize_str]
  rw [fold_char_spec s (start_char_list st) [] st.charStack rfl]
  rfl

theorem serialize_bytes_spec (st : SerState) (bs : List Nat) :
    serialize_bytes st bs =
      some (st.heap.length, { st with heap := st.heap ++ [GData.dByteList bs] }) := by
  rw [serialize_bytes]
  rw [fold_byte_spec bs (start_byte_list st) [] st.byteStack rfl]
  rfl

theorem serializeSeqItems_spec (opts : SerOptions) :
    ∀ (items : List SValue), (∀ v ∈ items, SerializeTotal opts v) →
      ∀ st cur rest, st.listStack = cur :: rest →
      ∃ st2 newPairs, serializeSeqItems opts st items = some st2 ∧
        st2.listStack = (cur ++ newPairs) :: rest ∧
        (∃ ext, st2.heap = st.heap ++ ext) ∧
        st2.charStack = st.charStack ∧
        st2.byteStack = st.byteStack ∧
        (∀ x, st.struct_sym = some x → ∃ y, st2.struct_sym = some y) ∧
        (opts = defaultSerOptions → EncodesItems st2.heap newPairs items) := by
  intro items
  induction items with
  | nil =>
      intro _ st cur rest hst
      refine ⟨st, [], by rw [serializeSeqItems], by rw [List.append_nil, ← hst],
        ⟨[], by simp⟩, rfl, rfl, fun x hx => ⟨x, hx⟩, fun _ => ?_⟩
      rw [EncodesItems]
      trivial
  | cons v vs ih =>
      intro hall st cur rest hst
      obtain ⟨a, stA, hser, ⟨ext1, hext1⟩, hl, hc, hb, hss, henc⟩ :=
        hall v (List.mem_cons_self v vs) st
      obtain ⟨st2, ps, hrec, hls2, ⟨ext2, hext2⟩, hc2, hb2, hss2, henc2⟩ :=
        ih (fun w hw => hall w (List.mem_cons_of_mem v hw))
          { stA with listStack := (cur ++ [(a, false)]) :: rest }
          (cur ++ [(a, false)]) rest rfl
      refine ⟨st2, (a, false) :: ps, ?_, ?_, ?_, ?_, ?_, ?_, ?_⟩
      · simp only [serializeSeqItems, hser, add_to_list, hl, hst]
        exact hrec
      · rw [hls2, List.append_assoc]
        rfl
      · exact ⟨ext1 ++ ext2, by rw [hext2, hext1, List.append_assoc]⟩
      · rw [hc2, hc]
      · rw [hb2, hb]
      · intro x hx
        obtain ⟨y, hy⟩ := hss x hx
        exact hss2 y hy
      · intro hdef
        rw [EncodesItems]
        refine ⟨rfl, ?_, henc2 hdef⟩
        have h1 : Encodes stA.heap a v := henc hdef
        have h2 : st2.heap = stA.heap ++ ext2 := hext2
        rw [h2]
        exact Encodes_extend ext2 h1

theorem serializeMapEntries_spec (opts : SerOptions) :
    ∀ (entries : List (List Char × SValue)),
      (∀ e ∈ entries, SerializeTotal opts e.2) →
      ∀ st cur rest, st.listStack = cur :: rest →
      ∃ st2 newPairs, serializeMapEntries opts st entries = some st2 ∧
        st2.listStack = (cur ++ newPairs) :: rest ∧
        (∃ ext, st2.heap = st.heap ++ ext) ∧
        st2.charStack = st.charStack ∧
        st2.byteStack = st.byteStack ∧
        (∀ x, st.struct_sym = some x → ∃ y, st2.struct_sym = some y) ∧
        (opts = defaultSerOptions → EncodesEntries st2.heap newPairs entries) := by
  intro entries
  induction entries with
  | nil =>
      intro _ st cur rest hst
      refine ⟨st, [], by rw [serializeMapEntries], by rw [List.append_nil, ← hst],
        ⟨[], by simp⟩, rfl, rfl, fun x hx => ⟨x, hx⟩, fun _ => ?_⟩
      rw [EncodesEntries]
      trivial
  | cons kv kvs ih =>
      obtain ⟨k, v⟩ := kv
      intro hall st cur rest hst
      have hsym : add_symbol_from { st with heap := st.heap ++ [GData.dCharList k] }
          st.heap.length
          = some (st.heap.length + 1,
            { st with heap := st.heap ++ [GData.dCharList k, GData.dSymbol k] }) := by
        rw [add_symbol_from]
        have hg : ({ st with heap := st.heap ++ [GData.dCharList k] } : SerState).heap.get?
            st.heap.length = some (GData.dCharList k) := List.get?_concat_length _ _
        rw [hg]
        simp [addData]
      obtain ⟨val, st4, hser4, ⟨ext1, hext1⟩, hl4, hc4, hb4, hss4, henc4⟩ :=
        hall (k, v) (List.mem_cons_self _ _)
          { st with heap := st.heap ++ [GData.dCharList k, GData.dSymbol k],
                    pending_key := some (st.heap.length + 1) }
      obtain ⟨st2, ps, hrec, hls2, ⟨ext2, hext2⟩, hc2, hb2, hss2, henc2⟩ :=
        ih (fun e he => hall e (List.mem_cons_of_mem _ he))
          { st4 with heap := st4.heap ++ [GData.dPair (st.heap.length + 1) val],
                     listStack := (cur ++ [(st4.heap.length, true)]) :: rest }
          (cur ++ [(st4.heap.length, true)]) rest rfl
      have hksym : st4.heap.get? (st.heap.length + 1) = some (GData.dSymbol k) := by
        rw [hext1]
        apply get?_extend
        rw [show st.heap ++ [GData.dCharList k, GData.dSymbol k] =
          (st.heap ++ [GData.dCharList k]) ++ [GData.dSymbol k] by simp]
        rw [show st.heap.length + 1 = (st.heap ++ [GData.dCharList k]).length by simp]
        exact List.get?_concat_length _ _
      refine ⟨st2, (st4.heap.length, true) :: ps, ?_, ?_, ?_, ?_, ?_, ?_, ?_⟩
      · rw [serializeMapEntries, serialize_str_spec]
        simp only [hsym, Option.some.injEq]
        rw [hser4]
        dsimp only [add_pair, addData]
        rw [show add_to_list
            { st4 with heap := st4.heap ++ [GData.dPair (st.heap.length + 1) val] }
            st4.heap.length true
          = some { st4 with
              heap := st4.heap ++ [GData.dPair (st.heap.length + 1) val],
              listStack := (cur ++ [(st4.heap.length, true)]) :: rest } by
          rw [add_to_list]
          dsimp only
          rw [hl4]
          dsimp only
          rw [hst]]
        exact hrec
      · rw [hls2, List.append_assoc]
        rfl
      · refine ⟨[GData.dCharList k, GData.dSymbol k] ++ ext1 ++
          [GData.dPair (st.heap.length + 1) val] ++ ext2, ?_⟩
        rw [hext2]
        dsimp only
        rw [hext1]
        dsimp only
        simp [List.append_assoc]
      · rw [hc2]
        dsimp only
        rw [hc4]
      · rw [hb2]
        dsimp only
        rw [hb4]
      · intro x hx
        obtain ⟨y, hy⟩ := hss4 x hx
        exact hss2 y hy
      · intro hdef
        rw [EncodesEntries]
        refine ⟨rfl, ⟨st.heap.length + 1, val, ?_, ?_, ?_⟩, henc2 hdef⟩
        · rw [hext2]
          apply get?_extend
          dsimp only
          exact List.get?_concat_length _ _
        · rw [hext2]
          apply get?_extend
          dsimp only
          exact get?_extend _ hksym
        · rw [hext2]
          dsimp only
          rw [show st4.heap ++ [GData.dPair (st.heap.length + 1) val] ++ ext2 =
            st4.heap ++ ([GData.dPair (st.heap.length + 1) val] ++ ext2) by
            rw [List.append_assoc]]
          exact Encodes_extend _ (henc4 hdef)

theorem serializeStructFields_spec (opts : SerOptions) :
    ∀ (fields : List (List Char × SValue)),
      (∀ e ∈ fields, SerializeTotal opts e.2) →
      ∀ st cur rest, st.listStack = cur :: rest →
      ∃ st2 newPairs, serializeStructFields opts st fields = some st2 ∧
        st2.listStack = (cur ++ newPairs) :: rest ∧
        (∃ ext, st2.heap = st.heap ++ ext) ∧
        st2.charStack = st.charStack ∧
        st2.byteStack = st.byteStack ∧
        (∀ x, st.struct_sym = some x → ∃ y, st2.struct_sym = some y) ∧
        (opts = defaultSerOptions → EncodesEntries st2.heap newPairs fields) := by
  intro fields
  induction fields with
  | nil =>
      intro _ st cur rest hst
      refine ⟨st, [], by rw [serializeStructFields], by rw [List.append_nil, ← hst],
        ⟨[], by simp⟩, rfl, rfl, fun x hx => ⟨x, hx⟩, fun _ => ?_⟩
      rw [EncodesEntries]
      trivial
  | cons kv kvs ih =>
      obtain ⟨k, v⟩ := kv
      intro hall st cur rest hst
      obtain ⟨val, st4, hser4, ⟨ext1, hext1⟩, hl4, hc4, hb4, hss4, henc4⟩ :=
        hall (k, v) (List.mem_cons_self _ _)
          { st with heap := st.heap ++ [GData.dSymbol k] }
      obtain ⟨st2, ps, hrec, hls2, ⟨ext2, hext2⟩, hc2, hb2, hss2, henc2⟩ :=
        ih (fun e he => hall e (List.mem_cons_of_mem _ he))
          { st4 with heap := st4.heap ++ [GData.dPair st.heap.length val],
                     listStack := (cur ++ [(st4.heap.length, true)]) :: rest }
          (cur ++ [(st4.heap.length, true)]) rest rfl
      have hksym : st4.heap.get? st.heap.length = some (GData.dSymbol k) := by
        rw [hext1]
        apply get?_extend
        exact List.get?_concat_length _ _
      refine ⟨st2, (st4.heap.length, true) :: ps, ?_, ?_, ?_, ?_, ?_, ?_, ?_⟩
      · rw [serializeStructFields]
        dsimp only [parse_add_symbol, addData]
        rw [hser4]
        dsimp only [add_pair, addData]
        rw [show add_to_list
            { st4 with heap := st4.heap ++ [GData.dPair st.heap.length val] }
            st4.heap.length true
          = some { st4 with
              heap := st4.heap ++ [GData.dPair st.heap.length val],
              listStack := (cur ++ [(st4.heap.length, true)]) :: rest } by
          rw [add_to_list]
          dsimp only
          rw [hl4]
          dsimp only
          rw [hst]]
        exact hrec
      · rw [hls2, List.append_assoc]
        rfl
      · refine ⟨[GData.dSymbol k] ++ ext1 ++
          [GData.dPair st.heap.length val] ++ ext2, ?_⟩
        rw [hext2]
        dsimp only
        rw [hext1]
        dsimp only
        simp [List.append_assoc]
      · rw [hc2]
        dsimp only
        rw [hc4]
      · rw [hb2]
        dsimp only
        rw [hb4]
      · intro x hx
        obtain ⟨y, hy⟩ := hss4 x hx
        exact hss2 y hy
      · intro hdef
        rw [EncodesEntries]
        refine ⟨rfl, ⟨st.heap.length, val, ?_, ?_, ?_⟩, henc2 hdef⟩
        · rw [hext2]
          apply get?_extend
          dsimp only
          exact List.get?_concat_length _ _
        · rw [hext2]
          apply get?_extend
          dsimp only
          exact get?_extend _ hksym
        · rw [hext2]
          dsimp only
          rw [show st4.heap ++ [GData.dPair st.heap.length val] ++ ext2 =
            st4.heap ++ ([GData.dPair st.heap.length val] ++ ext2) by
            rw [List.append_assoc]]
          exact Encodes_extend _ (henc4 hdef)

theorem serialize_spec : ∀ (n : Nat) (v : SValue), sizeOf v ≤ n →
    ∀ opts, SerializeTotal opts v := by
  intro n
  induction n with
  | zero =>
      intro v hv
      exfalso
      cases v <;> simp at hv
  | succ n ihn =>
      intro v hv opts st
      cases v with
      | vBool b =>
          cases b
          · refine ⟨st.heap.length, { st with heap := st.heap ++ [GData.dFalse] },
              ?_, ⟨[GData.dFalse], rfl⟩, rfl, rfl, rfl, fun x hx => ⟨x, hx⟩, fun _ => ?_⟩
            · simp only [serializeValue]
              rfl
            · simp only [Encodes]
              exact List.get?_concat_length _ _
          · refine ⟨st.heap.length, { st with heap := st.heap ++ [GData.dTrue] },
              ?_, ⟨[GData.dTrue], rfl⟩, rfl, rfl, rfl, fun x hx => ⟨x, hx⟩, fun _ => ?_⟩
            · simp only [serializeValue]
              rfl
            · simp only [Encodes]
              exact List.get?_concat_length _ _
      | vInt m =>
          refine ⟨st.heap.length, { st with heap := st.heap ++ [GData.dNumber m] },
            ?_, ⟨[GData.dNumber m], rfl⟩, rfl, rfl, rfl, fun x hx => ⟨x, hx⟩, fun _ => ?_⟩
          · simp only [serializeValue]
            rfl
          · simp only [Encodes]
            exact List.get?_concat_length _ _
      | vChar c =>
          refine ⟨st.heap.length, { st with heap := st.heap ++ [GData.dChar c] },
            ?_, ⟨[GData.dChar c], rfl⟩, rfl, rfl, rfl, fun x hx => ⟨x, hx⟩, fun _ => ?_⟩
          · simp only [serializeValue]
            rfl
          · simp only [Encodes]
            exact List.get?_concat_length _ _
      | vStr s =>
          refine ⟨st.heap.length, { st with heap := st.heap ++ [GData.dCharList s] },
            ?_, ⟨[GData.dCharList s], rfl⟩, rfl, rfl, rfl, fun x hx => ⟨x, hx⟩, fun _ => ?_⟩
          · simp only [serializeValue]
            exact serialize_str_spec st s
          · simp only [Encodes]
            exact List.get?_concat_length _ _
      | vBytes bs =>
          refine ⟨st.heap.length, { st with heap := st.heap ++ [GData.dByteList bs] },
            ?_, ⟨[GData.dByteList bs], rfl⟩, rfl, rfl, rfl, fun x hx => ⟨x, hx⟩, fun _ => ?_⟩
          · simp only [serializeValue]
            exact serialize_bytes_spec st bs
          · simp only [Encodes]
            exact List.get?_concat_length _ _
      | vUnit =>
          refine ⟨st.heap.length, { st with heap := st.heap ++ [GData.dUnit] },
            ?_, ⟨[GData.dUnit], rfl⟩, rfl, rfl, rfl, fun x hx => ⟨x, hx⟩, fun _ => ?_⟩
          · simp only [serializeValue]
            rfl
          · simp only [Encodes]
            exact List.get?_concat_length _ _
      | vUnitStruct name =>
          cases hbeh : opts.unit_struct_behavior with
          | ExcludeTyping =>
              refine ⟨st.heap.length, { st with heap := st.heap ++ [GData.dUnit] },
                ?_, ⟨[GData.dUnit], rfl⟩, rfl, rfl, rfl, fun x hx => ⟨x, hx⟩, fun _ => ?_⟩
              · simp only [serializeValue, hbeh]
                rfl
              · simp only [Encodes]
                exact List.get?_concat_length _ _
          | IncludeTyping =>
              refine ⟨st.heap.length + 3,
                { st with heap := st.heap ++ [GData.dCharList name,
                    GData.dSymbol data_name_meta_key,
                    GData.dPair (st.heap.length + 1) st.heap.length,
                    GData.dList [(st.heap.length + 2, true)]] },
                ?_, ⟨_, rfl⟩, rfl, rfl, rfl, fun x hx => ⟨x, hx⟩, ?_⟩
              · simp only [serializeValue, hbeh, serialize_str_spec, parse_add_symbol,
                  addData, add_pair, start_list, add_to_list, end_list]
                simp [List.append_assoc]
              · intro hdef
                rw [hdef] at hbeh
                simp [defaultSerOptions] at hbeh
      | vNone =>
          cases hbeh : opts.optional_behavior with
          | UnitValue =>
              refine ⟨st.heap.length, { st with heap := st.heap ++ [GData.dUnit] },
                ?_, ⟨[GData.dUnit], rfl⟩, rfl, rfl, rfl, fun x hx => ⟨x, hx⟩, fun _ => ?_⟩
              · simp [serializeValue, hbeh, add_unit, addData]
              · simp only [Encodes]
                exact List.get?_concat_length _ _
          | Pair =>
              refine ⟨st.heap.length + 2,
                { st with heap := st.heap ++ [GData.dUnit,
                    GData.dSymbol "none".data,
                    GData.dPair (st.heap.length + 1) st.heap.length] },
                ?_, ⟨_, rfl⟩, rfl, rfl, rfl, fun x hx => ⟨x, hx⟩, ?_⟩
              · simp only [serializeValue, hbeh, add_unit, parse_add_symbol, addData,
                  add_pair]
                simp [List.append_assoc]
              · intro hdef
                rw [hdef] at hbeh
                simp [defaultSerOptions] at hbeh
      | vSome v =>
          have hsz : sizeOf v ≤ n := by
            simp at hv
            omega
          obtain ⟨val, st1, hser, ⟨ext1, hext1⟩, hl1, hc1, hb1, hss1, henc1⟩ :=
            ihn v hsz opts st
          cases hbeh : opts.optional_behavior with
          | UnitValue =>
              refine ⟨val, st1, ?_, ⟨ext1, hext1⟩, hl1, hc1, hb1, hss1, fun hdef => ?_⟩
              · simp only [serializeValue, hser, hbeh]
              · simp only [Encodes]
                exact henc1 hdef
          | Pair =>
              refine ⟨st1.heap.length + 1,
                { st1 with heap := st1.heap ++ [GData.dSymbol "some".data,
                    GData.dPair st1.heap.length val] },
                ?_, ⟨ext1 ++ [GData.dSymbol "some".data,
                      GData.dPair st1.heap.length val], ?_⟩,
                hl1, hc1, hb1, fun x hx => hss1 x hx, ?_⟩
              · simp only [serializeValue, hser, hbeh, parse_add_symbol, addData,
                  add_pair]
                simp [List.append_assoc]
              · rw [hext1]
                simp [List.append_assoc]
              · intro hdef
                rw [hdef] at hbeh
                simp [defaultSerOptions] at hbeh
      | vSeq items =>
          have hall : ∀ w ∈ items, SerializeTotal opts w := by
            intro w hw
            have h1 := List.sizeOf_lt_of_mem hw
            have h2 : sizeOf w ≤ n := by
              simp at hv
              omega
            exact ihn w h2 opts
          obtain ⟨stB, ps, hrun, hls, ⟨ext, hex⟩, hc, hb, hss, henc⟩ :=
            serializeSeqItems_spec opts items hall (start_list st) [] st.listStack rfl
          have hend : end_list stB = some (stB.heap.length,
              { stB with listStack := st.listStack,
                         heap := stB.heap ++ [GData.dList ps] }) := by
            rw [end_list, hls]
            rfl
          refine ⟨stB.heap.length,
            { stB with listStack := st.listStack,
                       heap := stB.heap ++ [GData.dList ps] },
            ?_, ⟨ext ++ [GData.dList ps], ?_⟩, rfl, hc, hb,
            fun x hx => hss x hx, fun hdef => ?_⟩
          · simp only [serializeValue, hrun, hend]
          · rw [show stB.heap = st.heap ++ ext from hex]
            simp [List.append_assoc]
          · simp only [Encodes]
            exact ⟨ps, List.get?_concat_length _ _, EncodesItems_extend (henc hdef)⟩
      | vTuple items =>
          have hall : ∀ w ∈ items, SerializeTotal opts w := by
            intro w hw
            have h1 := List.sizeOf_lt_of_mem hw
            have h2 : sizeOf w ≤ n := by
              simp at hv
              omega
            exact ihn w h2 opts
          obtain ⟨stB, ps, hrun, hls, ⟨ext, hex⟩, hc, hb, hss, henc⟩ :=
            serializeSeqItems_spec opts items hall (start_list st) [] st.listStack rfl
          have hend : end_list stB = some (stB.heap.length,
              { stB with listStack := st.listStack,
                         heap := stB.heap ++ [GData.dList ps] }) := by
            rw [end_list, hls]
            rfl
          refine ⟨stB.heap.length,
            { stB with listStack := st.listStack,
                       heap := stB.heap ++ [GData.dList ps] },
            ?_, ⟨ext ++ [GData.dList ps], ?_⟩, rfl, hc, hb,
            fun x hx => hss x hx, fun hdef => ?_⟩
          · simp only [serializeValue, hrun, hend]
          · rw [show stB.heap = st.heap ++ ext from hex]
            simp [List.append_assoc]
          · simp only [Encodes]
            exact ⟨ps, List.get?_concat_length _ _, EncodesItems_extend (henc hdef)⟩
      | vMap entries =>
          have hall : ∀ e ∈ entries, SerializeTotal opts e.2 := by
            intro e he
            have h1 := List.sizeOf_lt_of_mem he
            obtain ⟨k, w⟩ := e
            have h2 : sizeOf w ≤ n := by
              simp at hv
              simp at h1
              omega
            exact ihn w h2 opts
          obtain ⟨stB, ps, hrun, hls, ⟨ext, hex⟩, hc, hb, hss, henc⟩ :=
            serializeMapEntries_spec opts entries hall (start_list st) [] st.listStack rfl
          have hend : end_list stB = some (stB.heap.length,
              { stB with listStack := st.listStack,
                         heap := stB.heap ++ [GData.dList ps] }) := by
            rw [end_list, hls]
            rfl
          refine ⟨stB.heap.length,
            { stB with listStack := st.listStack,
                       heap := stB.heap ++ [GData.dList ps] },
            ?_, ⟨ext ++ [GData.dList ps], ?_⟩, rfl, hc, hb,
            fun x hx => hss x hx, fun hdef => ?_⟩
          · simp only [serializeValue, hrun, hend]
          · rw [show stB.heap = st.heap ++ ext from hex]
            simp [List.append_assoc]
          · simp only [Encodes]
            exact ⟨ps, List.get?_concat_length _ _, EncodesEntries_extend (henc hdef)⟩
      | vStruct sname fields =>
          have hall : ∀ e ∈ fields, SerializeTotal opts e.2 := by
            intro e he
            have h1 := List.sizeOf_lt_of_mem he
            obtain ⟨k, w⟩ := e
            have h2 : sizeOf w ≤ n := by
              simp at hv
              simp at h1
              omega
            exact ihn w h2 opts
          obtain ⟨stB, ps, hrun, hls, ⟨ext, hex⟩, hc, hb, hss, henc⟩ :=
            serializeStructFields_spec opts fields hall
              { st with heap := st.heap ++ [GData.dSymbol sname],
                        struct_sym := some st.heap.length,
                        listStack := [] :: st.listStack }
              [] st.listStack rfl
          obtain ⟨y, hy⟩ := hss st.heap.length rfl
          cases hbeh : opts.unit_struct_behavior with
          | ExcludeTyping =>
              have hend : end_struct_like opts stB = some (stB.heap.length,
                  { stB with listStack := st.listStack,
                             heap := stB.heap ++ [GData.dList ps] }) := by
                rw [end_struct_like, hbeh]
                dsimp only
                rw [end_list, hls]
                rfl
              refine ⟨stB.heap.length,
                { stB with listStack := st.listStack,
                           heap := stB.heap ++ [GData.dList ps] },
                ?_, ⟨[GData.dSymbol sname] ++ ext ++ [GData.dList ps], ?_⟩, rfl, hc, hb,
                fun x hx => ⟨y, hy⟩, fun hdef => ?_⟩
              · simp only [serializeValue, parse_add_symbol, addData, start_list,
                  hrun, hend]
              · rw [show stB.heap = st.heap ++ [GData.dSymbol sname] ++ ext from hex]
                simp [List.append_assoc]
              · simp only [Encodes]
                exact ⟨ps, List.get?_concat_length _ _, EncodesEntries_extend (henc hdef)⟩
          | IncludeTyping =>
              have hend : end_struct_like opts stB = some (stB.heap.length + 2,
                  { stB with listStack := st.listStack,
                             heap := stB.heap ++ [GData.dSymbol data_name_meta_key,
                               GData.dPair stB.heap.length y,
                               GData.dList (ps ++ [(stB.heap.length + 1, true)])] }) := by
                rw [end_struct_like, hbeh, hy]
                dsimp only [parse_add_symbol, addData, add_pair]
                simp only [add_to_list, hls]
                rw [end_list]
                dsimp only
                simp [addData, hy, List.append_assoc]
              refine ⟨stB.heap.length + 2,
                { stB with listStack := st.listStack,
                           heap := stB.heap ++ [GData.dSymbol data_name_meta_key,
                             GData.dPair stB.heap.length y,
                             GData.dList (ps ++ [(stB.heap.length + 1, true)])] },
                ?_, ⟨[GData.dSymbol sname] ++ ext ++ [GData.dSymbol data_name_meta_key,
                      GData.dPair stB.heap.length y,
                      GData.dList (ps ++ [(stB.heap.length + 1, true)])], ?_⟩,
                rfl, hc, hb, fun x hx => ⟨y, hy⟩, ?_⟩
              · simp only [serializeValue, parse_add_symbol, addData, start_list,
                  hrun, hend]
              · rw [show stB.heap = st.heap ++ [GData.dSymbol sname] ++ ext from hex]
                simp [List.append_assoc]
              · intro hdef
                rw [hdef] at hbeh
                simp [defaultSerOptions] at hbeh
      | vUnitVariant ename vname idx =>
          cases hbeh : opts.variant_name_behavior with
          | Full =>
              refine ⟨st.heap.length,
                { st with heap := st.heap ++
                    [GData.dSymbol (ename ++ ':' :: ':' :: vname)] },
                ?_, ⟨_, rfl⟩, rfl, rfl, rfl, fun x hx => ⟨x, hx⟩, fun _ => ?_⟩
              · simp [serializeValue, serialize_unit_variant, hbeh, parse_add_symbol,
                  addData]
              · simp only [Encodes]
                exact List.get?_concat_length _ _
          | Short =>
              refine ⟨st.heap.length,
                { st with heap := st.heap ++ [GData.dSymbol vname] },
                ?_, ⟨_, rfl⟩, rfl, rfl, rfl, fun x hx => ⟨x, hx⟩, ?_⟩
              · simp [serializeValue, serialize_unit_variant, hbeh, parse_add_symbol,
                  addData]
              · intro hdef
                rw [hdef] at hbeh
                simp [defaultSerOptions] at hbeh
          | Index =>
              refine ⟨st.heap.length,
                { st with heap := st.heap ++ [GData.dNumber (Int.ofNat idx)] },
                ?_, ⟨_, rfl⟩, rfl, rfl, rfl, fun x hx => ⟨x, hx⟩, ?_⟩
              · simp [serializeValue, serialize_unit_variant, hbeh, addData]
              · intro hdef
                rw [hdef] at hbeh
                simp [defaultSerOptions] at hbeh
      | vNewtypeVariant ename vname idx payload =>
          have hsz : sizeOf payload ≤ n := by
            simp at hv
            omega
          cases hbeh : opts.variant_name_behavior with
          | Full =>
              have hne : (Serializer.VariantNameBehavior.Full !=
                  Serializer.VariantNameBehavior.Index) = true := by decide
              obtain ⟨value, st3, hser, ⟨ext1, hext1⟩, hl3, hc3, hb3, hss3, henc3⟩ :=
                ihn payload hsz opts
                  { st with
                    heap := st.heap ++ [GData.dSymbol (ename ++ [':', ':'] ++ vname)]
                    listStack := [] :: st.listStack }
              refine ⟨st3.heap.length + 1,
                { st3 with
                  listStack := st.listStack
                  heap := st3.heap ++ [GData.dPair st.heap.length value, GData.dList [(st3.heap.length, true)]] },
                ?_, ⟨[GData.dSymbol (ename ++ ':' :: ':' :: vname)] ++ ext1 ++
                    [GData.dPair st.heap.length value,
                     GData.dList [(st3.heap.length, true)]], ?_⟩,
                rfl, hc3, hb3, fun x hx => hss3 x hx, fun hdef => ?_⟩
              · simp only [serializeValue, hbeh, serialize_unit_variant,
                  parse_add_symbol, addData, start_list]
                rw [hser]
                dsimp only [add_pair, addData]
                simp only [hne, add_to_list, hl3]
                rw [end_list]
                dsimp only
                simp [addData, List.append_assoc]
              · rw [hext1]
                simp [List.append_assoc]
              · simp only [Encodes]
                refine ⟨st3.heap.length, st.heap.length, value, ?_, ?_, ?_, ?_⟩
                · rw [show st3.heap ++ [GData.dPair st.heap.length value,
                      GData.dList [(st3.heap.length, true)]] =
                    (st3.heap ++ [GData.dPair st.heap.length value]) ++
                      [GData.dList [(st3.heap.length, true)]] by simp]
                  rw [show st3.heap.length + 1 =
                    (st3.heap ++ [GData.dPair st.heap.length value]).length by simp]
                  exact List.get?_concat_length _ _
                · rw [show st3.heap ++ [GData.dPair st.heap.length value,
                      GData.dList [(st3.heap.length, true)]] =
                    (st3.heap ++ [GData.dPair st.heap.length value]) ++
                      [GData.dList [(st3.heap.length, true)]] by simp]
                  exact get?_extend _ (List.get?_concat_length _ _)
                · apply get?_extend
                  rw [hext1]
                  dsimp only
                  apply get?_extend
                  rw [List.append_assoc]
                  exact List.get?_concat_length _ _
                · exact Encodes_extend _ (henc3 hdef)
          | Short =>
              have hne : (Serializer.VariantNameBehavior.Short !=
                  Serializer.VariantNameBehavior.Index) = true := by decide
              obtain ⟨value, st3, hser, ⟨ext1, hext1⟩, hl3, hc3, hb3, hss3, henc3⟩ :=
                ihn payload hsz opts
                  { st with
                    heap := st.heap ++ [GData.dSymbol vname]
                    listStack := [] :: st.listStack }
              refine ⟨st3.heap.length + 1,
                { st3 with
                  listStack := st.listStack
                  heap := st3.heap ++ [GData.dPair st.heap.length value, GData.dList [(st3.heap.length, true)]] },
                ?_, ⟨[GData.dSymbol vname] ++ ext1 ++
                    [GData.dPair st.heap.length value,
                     GData.dList [(st3.heap.length, true)]], ?_⟩,
                rfl, hc3, hb3, fun x hx => hss3 x hx, ?_⟩
              · simp only [serializeValue, hbeh, serialize_unit_variant,
                  parse_add_symbol, addData, start_list]
                rw [hser]
                dsimp only [add_pair, addData]
                simp only [hne, add_to_list, hl3]
                rw [end_list]
                dsimp only
                simp [addData, List.append_assoc]
              · rw [hext1]
                simp [List.append_assoc]
              · intro hdef
                rw [hdef] at hbeh
                simp [defaultSerOptions] at hbeh
          | Index =>
              have hne : (Serializer.VariantNameBehavior.Index !=
                  Serializer.VariantNameBehavior.Index) = false := by decide
              obtain ⟨value, st3, hser, ⟨ext1, hext1⟩, hl3, hc3, hb3, hss3, henc3⟩ :=
                ihn payload hsz opts
                  { st with
                    heap := st.heap ++ [GData.dNumber (Int.ofNat idx)]
                    listStack := [] :: st.listStack }
              refine ⟨st3.heap.length + 1,
                { st3 with
                  listStack := st.listStack
                  heap := st3.heap ++ [GData.dPair st.heap.length value, GData.dList [(st3.heap.length, false)]] },
                ?_, ⟨[GData.dNumber (Int.ofNat idx)] ++ ext1 ++
                    [GData.dPair st.heap.length value,
                     GData.dList [(st3.heap.length, false)]], ?_⟩,
                rfl, hc3, hb3, fun x hx => hss3 x hx, ?_⟩
              · simp only [serializeValue, hbeh, serialize_unit_variant, addData,
                  start_list]
                rw [hser]
                dsimp only [add_pair, addData]
                simp only [hne, add_to_list, hl3]
                rw [end_list]
                dsimp only
                simp [addData, List.append_assoc]
              · rw [hext1]
                simp [List.append_assoc]
              · intro hdef
                rw [hdef] at hbeh
                simp [defaultSerOptions] at hbeh

theorem deserialize_string_symbol (h : List GData) (f a : Nat) (s : List Char)
    (hs : h.get? a = some (GData.dSymbol s)) :
    deserialize_string h (f + 1) a = some (Except.ok s) :=
  deserialize_string_realized h f a s (Or.inl ⟨s, hs⟩) (by rw [textOf, hs])

theorem deserialize_byte_buf_bytes (h : List GData) (a : Nat) (bs : List Nat)
    (hs : h.get? a = some (GData.dByteList bs)) :
    deserialize_byte_buf h a = Except.ok bs := by
  rw [deserialize_byte_buf.eq_def, hs]
  dsimp only
  rw [get_byte_list_len, hs]
  simpa using readByteListLoop_spec h a bs hs bs.length 0 [] (by omega)

theorem split_variant_encoded (ename vname : List Char)
    (he : containsSep (ename ++ [':']) = false)
    (hv : containsSep vname = false) :
    split_variant (ename ++ ':' :: ':' :: vname) = Except.ok vname := by
  rw [split_variant, splitFirst_append_sep ename vname he]
  dsimp only
  rw [splitFirst_no_sep vname hv]

theorem svalue_sizeOf_pos (v : SValue) : 1 ≤ sizeOf v := by
  cases v <;> simp_arith

theorem list_sizeOf_pos {α : Type} [SizeOf α] (l : List α) : 1 ≤ sizeOf l := by
  cases l <;> simp_arith

theorem encodes_not_unit : ∀ (n : Nat) (v : SValue), sizeOf v ≤ n →
    ∀ (h : List GData) (a : Nat), unitLike v = false → Encodes h a v →
    ∃ d, h.get? a = some d ∧ d ≠ GData.dUnit := by
  intro n
  induction n with
  | zero =>
      intro v hv
      exfalso
      have := svalue_sizeOf_pos v
      omega
  | succ n ihn =>
      intro v hv h a hul henc
      cases v with
      | vBool b =>
          cases b
          · exact ⟨GData.dFalse, by simpa only [Encodes] using henc, by simp⟩
          · exact ⟨GData.dTrue, by simpa only [Encodes] using henc, by simp⟩
      | vInt m => exact ⟨_, by simpa only [Encodes] using henc, by simp⟩
      | vChar c => exact ⟨_, by simpa only [Encodes] using henc, by simp⟩
      | vStr s => exact ⟨_, by simpa only [Encodes] using henc, by simp⟩
      | vBytes bs => exact ⟨_, by simpa only [Encodes] using henc, by simp⟩
      | vUnit => simp [unitLike] at hul
      | vUnitStruct name => simp [unitLike] at hul
      | vNone => simp [unitLike] at hul
      | vSome v =>
          have hsz : sizeOf v ≤ n := by
            simp at hv
            omega
          have hul' : unitLike v = false := by simpa only [unitLike] using hul
          have henc' : Encodes h a v := by simpa only [Encodes] using henc
          exact ihn v hsz h a hul' henc'
      | vSeq items =>
          obtain ⟨es, hget, _⟩ := by simpa only [Encodes] using henc
          exact ⟨_, hget, by simp⟩
      | vTuple items =>
          obtain ⟨es, hget, _⟩ := by simpa only [Encodes] using henc
          exact ⟨_, hget, by simp⟩
      | vMap entries =>
          obtain ⟨es, hget, _⟩ := by simpa only [Encodes] using henc
          exact ⟨_, hget, by simp⟩
      | vStruct sname fields =>
          obtain ⟨es, hget, _⟩ := by simpa only [Encodes] using henc
          exact ⟨_, hget, by simp⟩
      | vUnitVariant ename vname idx =>
          exact ⟨_, by simpa only [Encodes] using henc, by simp⟩
      | vNewtypeVariant ename vname idx payload =>
          obtain ⟨pa, d, va, hget, _⟩ := by simpa only [Encodes] using henc
          exact ⟨_, hget, by simp⟩

theorem hasShapeFields_names :
    ∀ (fields : List (List Char × SValue)) (fshapes : List (List Char × Shape)),
      hasShapeFields fields fshapes = true →
      fields.map Prod.fst = fshapes.map Prod.fst := by
  intro fields
  induction fields with
  | nil =>
      intro fshapes hsf
      cases fshapes with
      | nil => rfl
      | cons p sr =>
          rw [hasShapeFields.eq_def] at hsf
          dsimp only at hsf
          exact Bool.noConfusion hsf
  | cons kv vr ih =>
      intro fshapes hsf
      obtain ⟨k, v⟩ := kv
      cases fshapes with
      | nil =>
          rw [hasShapeFields.eq_def] at hsf
          dsimp only at hsf
          exact Bool.noConfusion hsf
      | cons p sr =>
          obtain ⟨fk, fs⟩ := p
          rw [hasShapeFields.eq_def] at hsf
          dsimp only at hsf
          simp only [Bool.and_eq_true] at hsf
          obtain ⟨⟨hk, _⟩, hrest⟩ := hsf
          have := eq_of_beq hk
          subst this
          simp only [List.map_cons, List.cons.injEq]
          exact ⟨by trivial, ih sr hrest⟩

theorem EncodesItems_length {h : List GData} :
    ∀ (es : List (Nat × Bool)) (items : List SValue),
      EncodesItems h es items → es.length = items.length := by
  intro es
  induction es with
  | nil =>
      intro items hit
      cases items with
      | nil => rfl
      | cons v vs =>
          rw [EncodesItems.eq_def] at hit
          dsimp only at hit
  | cons e es' ih =>
      obtain ⟨ea, fl⟩ := e
      intro items hit
      cases items with
      | nil =>
          rw [EncodesItems.eq_def] at hit
          dsimp only at hit
      | cons v vs =>
          rw [EncodesItems.eq_def] at hit
          dsimp only at hit
          simp only [List.length_cons]
          exact congrArg (· + 1) (ih vs hit.2.2)

theorem hasShapeTuple_length :
    ∀ (items : List SValue) (ss : List Shape),
      hasShapeTuple items ss = true → items.length = ss.length := by
  intro items
  induction items with
  | nil =>
      intro ss hts
      cases ss with
      | nil => rfl
      | cons s sr =>
          rw [hasShapeTuple.eq_def] at hts
          dsimp only at hts
          exact Bool.noConfusion hts
  | cons v vr ih =>
      intro ss hts
      cases ss with
      | nil =>
          rw [hasShapeTuple.eq_def] at hts
          dsimp only at hts
          exact Bool.noConfusion hts
      | cons s sr =>
          rw [hasShapeTuple.eq_def] at hts
          dsimp only at hts
          simp only [Bool.and_eq_true] at hts
          simp only [List.length_cons]
          exact congrArg (· + 1) (ih sr hts.2)

theorem lookup_of_hasShapeFields :
    ∀ (fields : List (List Char × SValue)) (fshapes : List (List Char × Shape)),
      nodupKeys (fshapes.map Prod.fst) = true →
      hasShapeFields fields fshapes = true →
      ∀ kv ∈ fields, ∃ s, lookupField kv.1 fshapes = some s ∧
        hasShape kv.2 s = true := by
  intro fields
  induction fields with
  | nil =>
      intro fshapes _ _ kv hm
      exact absurd hm (List.not_mem_nil kv)
  | cons kv0 vr ih =>
      intro fshapes hnd hsf kv hm
      obtain ⟨k, v⟩ := kv0
      cases fshapes with
      | nil =>
          rw [hasShapeFields.eq_def] at hsf
          dsimp only at hsf
          exact Bool.noConfusion hsf
      | cons p sr =>
          obtain ⟨fk, fs⟩ := p
          rw [hasShapeFields.eq_def] at hsf
          dsimp only at hsf
          simp only [Bool.and_eq_true] at hsf
          obtain ⟨⟨hk, hvfs⟩, hrest⟩ := hsf
          have hkfk : k = fk := eq_of_beq hk
          simp only [List.map_cons, nodupKeys, Bool.and_eq_true,
            Bool.not_eq_true'] at hnd
          obtain ⟨hnotmem, hnd'⟩ := hnd
          rcases List.mem_cons.mp hm with heq | hmem
          · subst heq
            refine ⟨fs, ?_, hvfs⟩
            rw [lookupField]
            rw [if_pos hkfk.symm]
          · obtain ⟨s, hlk, hsh⟩ := ih sr hnd' hrest kv hmem
            refine ⟨s, ?_, hsh⟩
            rw [lookupField]
            rw [if_neg ?_]
            · exact hlk
            · intro hcontra
              have hkeys := hasShapeFields_names vr sr hrest
              have hin : kv.1 ∈ sr.map Prod.fst := by
                rw [← hkeys]
                exact List.mem_map_of_mem Prod.fst hmem
              rw [← hcontra] at hin
              rw [List.contains_eq_any_beq] at hnotmem
              have : (sr.map Prod.fst).any (fk == ·) = true := by
                apply List.any_eq_true.mpr
                exact ⟨fk, hin, by simp⟩
              rw [this] at hnotmem
              exact Bool.noConfusion hnotmem

theorem decodeMany_encodes (h : List GData) (F : Nat)
    (hdec : ∀ g, g < F → ∀ (w : SValue) (sh : Shape) (a : Nat), sizeOf w ≤ g →
      goodValue w = true → hasShape w sh = true → Encodes h a w →
      decode h g sh a = some (Except.ok w))
    (s : Shape) :
    ∀ (items : List SValue) (g : Nat), g < F → ∀ (es : List (Nat × Bool)),
      sizeOf items ≤ g → goodList items = true → hasShapeList items s = true →
      EncodesItems h es items →
      decodeMany h g s (es.map Prod.fst) = some (Except.ok items) := by
  intro items
  induction items with
  | nil =>
      intro g hg es _ _ _ henc
      cases es with
      | nil =>
          simp only [List.map_nil]
          rw [decodeMany]
      | cons e es' =>
          rw [EncodesItems.eq_def] at henc
          dsimp only at henc
  | cons w rest ih =>
      intro g hg es hsz hgood hshape henc
      cases es with
      | nil =>
          rw [EncodesItems.eq_def] at henc
          dsimp only at henc
      | cons e es' =>
          obtain ⟨ea, fl⟩ := e
          rw [EncodesItems.eq_def] at henc
          dsimp only at henc
          obtain ⟨-, hw, hrest⟩ := henc
          simp only [goodList, Bool.and_eq_true] at hgood
          simp only [hasShapeList, Bool.and_eq_true] at hshape
          have hp1 : 1 ≤ sizeOf rest := list_sizeOf_pos rest
          have hp2 : 1 ≤ sizeOf w := svalue_sizeOf_pos w
          rw [List.cons.sizeOf_spec] at hsz
          cases g with
          | zero => omega
          | succ g2 =>
              have h1 := hdec g2 (by omega) w s ea (by omega) hgood.1 hshape.1 hw
              have h2 := ih g2 (by omega) es' (by omega) hgood.2 hshape.2 hrest
              rw [List.map_cons, decodeMany, h1]
              dsimp only
              rw [h2]

theorem decodeTupleElems_encodes (h : List GData) (F : Nat)
    (hdec : ∀ g, g < F → ∀ (w : SValue) (sh : Shape) (a : Nat), sizeOf w ≤ g →
      goodValue w = true → hasShape w sh = true → Encodes h a w →
      decode h g sh a = some (Except.ok w)) :
    ∀ (items : List SValue) (ss : List Shape) (g : Nat), g < F →
      ∀ (es : List (Nat × Bool)),
      sizeOf items ≤ g → goodList items = true → hasShapeTuple items ss = true →
      EncodesItems h es items →
      decodeTupleElems h g ss (es.map Prod.fst) = some (Except.ok items) := by
  intro items
  induction items with
  | nil =>
      intro ss g hg es _ _ hts henc
      cases ss with
      | nil =>
          cases es with
          | nil =>
              simp only [List.map_nil]
              rw [decodeTupleElems]
          | cons e es' =>
              rw [EncodesItems.eq_def] at henc
              dsimp only at henc
      | cons s sr =>
          rw [hasShapeTuple.eq_def] at hts
          dsimp only at hts
          exact Bool.noConfusion hts
  | cons w rest ih =>
      intro ss g hg es hsz hgood hts henc
      cases ss with
      | nil =>
          rw [hasShapeTuple.eq_def] at hts
          dsimp only at hts
          exact Bool.noConfusion hts
      | cons s sr =>
          cases es with
          | nil =>
              rw [EncodesItems.eq_def] at henc
              dsimp only at henc
          | cons e es' =>
              obtain ⟨ea, fl⟩ := e
              rw [EncodesItems.eq_def] at henc
              dsimp only at henc
              obtain ⟨-, hw, hrest⟩ := henc
              simp only [goodList, Bool.and_eq_true] at hgood
              rw [hasShapeTuple.eq_def] at hts
              dsimp only at hts
              simp only [Bool.and_eq_true] at hts
              have hp1 : 1 ≤ sizeOf rest := list_sizeOf_pos rest
              have hp2 : 1 ≤ sizeOf w := svalue_sizeOf_pos w
              rw [List.cons.sizeOf_spec] at hsz
              cases g with
              | zero => omega
              | succ g2 =>
                  have h1 := hdec g2 (by omega) w s ea (by omega) hgood.1 hts.1 hw
                  have h2 := ih sr g2 (by omega) es' (by omega) hgood.2 hts.2 hrest
                  rw [List.map_cons, decodeTupleElems, h1]
                  dsimp only
                  rw [h2]

theorem decodeMapEntries_encodes (h : List GData) (F : Nat)
    (hdec : ∀ g, g < F → ∀ (w : SValue) (sh : Shape) (a : Nat), sizeOf w ≤ g →
      goodValue w = true → hasShape w sh = true → Encodes h a w →
      decode h g sh a = some (Except.ok w))
    (vs : Shape) :
    ∀ (entries : List (List Char × SValue)) (g : Nat), g < F →
      ∀ (es : List (Nat × Bool)),
      sizeOf entries ≤ g → goodEntries entries = true →
      hasShapeEntries entries vs = true → EncodesEntries h es entries →
      decodeMapEntries h g vs (es.map Prod.fst) = some (Except.ok entries) := by
  intro entries
  induction entries with
  | nil =>
      intro g hg es _ _ _ henc
      cases es with
      | nil =>
          simp only [List.map_nil]
          rw [decodeMapEntries]
      | cons e es' =>
          rw [EncodesEntries.eq_def] at henc
          dsimp only at henc
  | cons kv rest ih =>
      intro g hg es hsz hgood hshape henc
      obtain ⟨k, v⟩ := kv
      cases es with
      | nil =>
          rw [EncodesEntries.eq_def] at henc
          dsimp only at henc
      | cons e es' =>
          obtain ⟨ea, fl⟩ := e
          rw [EncodesEntries.eq_def] at henc
          dsimp only at henc
          obtain ⟨-, ⟨ka, va, hpair, hka, hv⟩, hrest⟩ := henc
          simp only [goodEntries, Bool.and_eq_true] at hgood
          simp only [hasShapeEntries, Bool.and_eq_true] at hshape
          have hp1 : 1 ≤ sizeOf rest := list_sizeOf_pos rest
          have hp2 : 1 ≤ sizeOf v := svalue_sizeOf_pos v
          have hp3 : 1 ≤ sizeOf k := list_sizeOf_pos k
          rw [List.cons.sizeOf_spec, Prod.mk.sizeOf_spec] at hsz
          cases g with
          | zero => omega
          | succ g2 =>
              cases g2 with
              | zero => omega
              | succ g3 =>
                  have h1 := hdec (g3 + 1) (by omega) v vs va (by omega)
                    hgood.1 hshape.1 hv
                  have h2 := ih (g3 + 1) (by omega) es' (by omega)
                    hgood.2 hshape.2 hrest
                  rw [List.map_cons, decodeMapEntries, get_pair, hpair]
                  dsimp only
                  rw [deserialize_string_symbol h g3 ka k hka]
                  dsimp only
                  rw [h1]
                  dsimp only
                  rw [h2]

theorem decodeStructEntries_encodes (h : List GData) (F : Nat)
    (hdec : ∀ g, g < F → ∀ (w : SValue) (sh : Shape) (a : Nat), sizeOf w ≤ g →
      goodValue w = true → hasShape w sh = true → Encodes h a w →
      decode h g sh a = some (Except.ok w))
    (fshapes : List (List Char × Shape)) :
    ∀ (fields : List (List Char × SValue)) (g : Nat), g < F →
      ∀ (es : List (Nat × Bool)),
      sizeOf fields ≤ g → goodEntries fields = true →
      (∀ kv ∈ fields, ∃ s, lookupField kv.1 fshapes = some s ∧
        hasShape kv.2 s = true) →
      EncodesEntries h es fields →
      decodeStructEntries h g fshapes (es.map Prod.fst) = some (Except.ok fields) := by
  intro fields
  induction fields with
  | nil =>
      intro g hg es _ _ _ henc
      cases es with
      | nil =>
          simp only [List.map_nil]
          rw [decodeStructEntries]
      | cons e es' =>
          rw [EncodesEntries.eq_def] at henc
          dsimp only at henc
  | cons kv rest ih =>
      intro g hg es hsz hgood hlook henc
      obtain ⟨k, v⟩ := kv
      cases es with
      | nil =>
          rw [EncodesEntries.eq_def] at henc
          dsimp only at henc
      | cons e es' =>
          obtain ⟨ea, fl⟩ := e
          rw [EncodesEntries.eq_def] at henc
          dsimp only at henc
          obtain ⟨-, ⟨ka, va, hpair, hka, hv⟩, hrest⟩ := henc
          simp only [goodEntries, Bool.and_eq_true] at hgood
          obtain ⟨s, hlk, hsh⟩ := hlook (k, v) (List.mem_cons_self _ _)
          have hp1 : 1 ≤ sizeOf rest := list_sizeOf_pos rest
          have hp2 : 1 ≤ sizeOf v := svalue_sizeOf_pos v
          have hp3 : 1 ≤ sizeOf k := list_sizeOf_pos k
          rw [List.cons.sizeOf_spec, Prod.mk.sizeOf_spec] at hsz
          cases g with
          | zero => omega
          | succ g2 =>
              cases g2 with
              | zero => omega
              | succ g3 =>
                  have h1 := hdec (g3 + 1) (by omega) v s va (by omega)
                    hgood.1 hsh hv
                  have h2 := ih (g3 + 1) (by omega) es' (by omega) hgood.2
                    (fun kv2 hm => hlook kv2 (List.mem_cons_of_mem _ hm)) hrest
                  rw [List.map_cons, decodeStructEntries, get_pair, hpair]
                  dsimp only
                  rw [deserialize_string_symbol h g3 ka k hka]
                  dsimp only
                  rw [hlk]
                  dsimp only
                  rw [h1]
                  dsimp only
                  rw [h2]

theorem decode_encodes : ∀ (f : Nat) (v : SValue) (sh : Shape) (h : List GData)
    (a : Nat), sizeOf v ≤ f → goodValue v = true → hasShape v sh = true →
    Encodes h a v → decode h f sh a = some (Except.ok v) := by
  intro f
  induction f using Nat.strong_induction_on with
  | _ f ihf =>
  intro v sh h a hsz hgood hshape henc
  cases f with
  | zero =>
      have := svalue_sizeOf_pos v
      omega
  | succ f' =>
  cases v with
  | vNewtypeVariant e vn i p =>
      simp only [goodValue] at hgood
      exact Bool.noConfusion hgood
  | vBool b =>
      cases sh <;> (rw [hasShape.eq_def] at hshape; dsimp only at hshape) <;>
        try exact Bool.noConfusion hshape
      cases b <;> simp only [Encodes] at henc <;> (rw [decode]; rw [henc])
  | vInt m =>
      cases sh <;> (rw [hasShape.eq_def] at hshape; dsimp only at hshape) <;>
        try exact Bool.noConfusion hshape
      simp only [Encodes] at henc
      rw [decode]
      rw [henc]
  | vChar c =>
      cases sh <;> (rw [hasShape.eq_def] at hshape; dsimp only at hshape) <;>
        try exact Bool.noConfusion hshape
      simp only [Encodes] at henc
      rw [decode]
      rw [henc]
  | vStr s =>
      cases sh <;> (rw [hasShape.eq_def] at hshape; dsimp only at hshape) <;>
        try exact Bool.noConfusion hshape
      simp only [Encodes] at henc
      rw [decode]
      rw [deserialize_string_charlist h f' a s henc]
  | vBytes bs =>
      cases sh <;> (rw [hasShape.eq_def] at hshape; dsimp only at hshape) <;>
        try exact Bool.noConfusion hshape
      simp only [Encodes] at henc
      rw [decode]
      rw [deserialize_byte_buf_bytes h a bs henc]
  | vUnit =>
      cases sh <;> (rw [hasShape.eq_def] at hshape; dsimp only at hshape) <;>
        try exact Bool.noConfusion hshape
      simp only [Encodes] at henc
      rw [decode]
      rw [henc]
  | vUnitStruct name =>
      cases sh <;> (rw [hasShape.eq_def] at hshape; dsimp only at hshape) <;>
        try exact Bool.noConfusion hshape
      next n2 =>
      have hn := eq_of_beq hshape
      subst hn
      simp only [Encodes] at henc
      rw [decode]
      rw [henc]
  | vNone =>
      cases sh <;> (rw [hasShape.eq_def] at hshape; dsimp only at hshape) <;>
        try exact Bool.noConfusion hshape
      simp only [Encodes] at henc
      rw [decode]
      rw [henc]
  | vSome v =>
      cases sh <;> (rw [hasShape.eq_def] at hshape; dsimp only at hshape) <;>
        try exact Bool.noConfusion hshape
      next s =>
      simp only [goodValue, Bool.and_eq_true, Bool.not_eq_true'] at hgood
      obtain ⟨hul, hg⟩ := hgood
      simp only [Encodes] at henc
      obtain ⟨d, hget, hdne⟩ := encodes_not_unit (sizeOf v) v (le_refl _) h a hul henc
      have hszv : sizeOf v ≤ f' := by
        simp at hsz
        omega
      have hin := ihf f' (by omega) v s h a hszv hg hshape henc
      rw [decode]
      rw [hget]
      cases d <;> first | exact absurd rfl hdne | (dsimp only; rw [hin])
  | vSeq items =>
      cases sh <;> (rw [hasShape.eq_def] at hshape; dsimp only at hshape) <;>
        try exact Bool.noConfusion hshape
      next s =>
      simp only [goodValue] at hgood
      simp only [Encodes] at henc
      obtain ⟨es, hget, hitems⟩ := henc
      have hacc : list_accessor_items h f' a = some (Except.ok (es.map Prod.fst)) := by
        rw [list_accessor_items.eq_def, hget]
        dsimp only
        rw [gather_list_items_spec h a es hget]
      have hnwm : new_with_max h f' a none = some (Except.ok (es.map Prod.fst)) := by
        rw [new_with_max, hacc]
      have hsz' : sizeOf items ≤ f' := by
        simp at hsz
        omega
      have hmany := decodeMany_encodes h (f' + 1)
        (fun g hg w sh2 a2 hs hg2 hsh2 he2 => ihf g hg w sh2 h a2 hs hg2 hsh2 he2)
        s items f' (by omega) es hsz' hgood hshape hitems
      rw [decode]
      rw [hnwm]
      dsimp only
      rw [hmany]
  | vTuple items =>
      cases sh <;> (rw [hasShape.eq_def] at hshape; dsimp only at hshape) <;>
        try exact Bool.noConfusion hshape
      next ss =>
      simp only [goodValue] at hgood
      simp only [Encodes] at henc
      obtain ⟨es, hget, hitems⟩ := henc
      have hlen1 : es.length = items.length := EncodesItems_length es items hitems
      have hlen2 : items.length = ss.length := hasShapeTuple_length items ss hshape
      have hacc : list_accessor_items h f' a = some (Except.ok (es.map Prod.fst)) := by
        rw [list_accessor_items.eq_def, hget]
        dsimp only
        rw [gather_list_items_spec h a es hget]
      have hnwm : new_with_max h f' a (some ss.length) =
          some (Except.ok (es.map Prod.fst)) := by
        rw [new_with_max, hacc]
        dsimp only
        rw [if_neg (by simp [hlen1, hlen2])]
      have hsz' : sizeOf items ≤ f' := by
        simp at hsz
        omega
      have htup := decodeTupleElems_encodes h (f' + 1)
        (fun g hg w sh2 a2 hs hg2 hsh2 he2 => ihf g hg w sh2 h a2 hs hg2 hsh2 he2)
        items ss f' (by omega) es hsz' hgood hshape hitems
      rw [decode]
      rw [hnwm]
      dsimp only
      rw [htup]
  | vMap entries =>
      cases sh <;> (rw [hasShape.eq_def] at hshape; dsimp only at hshape) <;>
        try exact Bool.noConfusion hshape
      next vsh =>
      simp only [goodValue] at hgood
      simp only [Encodes] at henc
      obtain ⟨es, hget, hents⟩ := henc
      have hacc : list_accessor_items h f' a = some (Except.ok (es.map Prod.fst)) := by
        rw [list_accessor_items.eq_def, hget]
        dsimp only
        rw [gather_list_items_spec h a es hget]
      have hnwm : new_with_max h f' a none = some (Except.ok (es.map Prod.fst)) := by
        rw [new_with_max, hacc]
      have hsz' : sizeOf entries ≤ f' := by
        simp at hsz
        omega
      have hmap := decodeMapEntries_encodes h (f' + 1)
        (fun g hg w sh2 a2 hs hg2 hsh2 he2 => ihf g hg w sh2 h a2 hs hg2 hsh2 he2)
        vsh entries f' (by omega) es hsz' hgood hshape hents
      rw [decode]
      rw [hnwm]
      dsimp only
      rw [hmap]
  | vStruct sname fields =>
      cases sh <;> (rw [hasShape.eq_def] at hshape; dsimp only at hshape) <;>
        try exact Bool.noConfusion hshape
      next n2 fshapes =>
      simp only [Bool.and_eq_true] at hshape
      obtain ⟨⟨hn, hnd⟩, hsf⟩ := hshape
      have hne := eq_of_beq hn
      subst hne
      simp only [goodValue] at hgood
      simp only [Encodes] at henc
      obtain ⟨es, hget, hents⟩ := henc
      have hacc : list_accessor_items h f' a = some (Except.ok (es.map Prod.fst)) := by
        rw [list_accessor_items.eq_def, hget]
        dsimp only
        rw [gather_list_items_spec h a es hget]
      have hnwm : new_with_max h f' a none = some (Except.ok (es.map Prod.fst)) := by
        rw [new_with_max, hacc]
      have hsz' : sizeOf fields ≤ f' := by
        simp at hsz
        omega
      have hlook := lookup_of_hasShapeFields fields fshapes hnd hsf
      have hstr := decodeStructEntries_encodes h (f' + 1)
        (fun g hg w sh2 a2 hs hg2 hsh2 he2 => ihf g hg w sh2 h a2 hs hg2 hsh2 he2)
        fshapes fields f' (by omega) es hsz' hgood hlook hents
      rw [decode]
      rw [hnwm]
      dsimp only
      rw [hstr]
  | vUnitVariant e vn i =>
      cases sh <;> (rw [hasShape.eq_def] at hshape; dsimp only at hshape) <;>
        try exact Bool.noConfusion hshape
      next e2 variants =>
      simp only [Bool.and_eq_true] at hshape
      obtain ⟨he, hmatch⟩ := hshape
      have hee := eq_of_beq he
      subst hee
      simp only [goodValue, Bool.and_eq_true, Bool.not_eq_true'] at hgood
      obtain ⟨hg1, hg2⟩ := hgood
      simp only [Encodes] at henc
      have hpe : 1 ≤ sizeOf e := list_sizeOf_pos e
      have hpv : 1 ≤ sizeOf vn := list_sizeOf_pos vn
      simp only [SValue.vUnitVariant.sizeOf_spec] at hsz
      cases f' with
      | zero => omega
      | succ f2 =>
      cases f2 with
      | zero => omega
      | succ f3 =>
      cases hl : lookupVariant vn variants with
      | none =>
          rw [hl] at hmatch
          dsimp only at hmatch
          exact Bool.noConfusion hmatch
      | some p =>
      obtain ⟨j, k⟩ := p
      cases k with
      | some ps =>
          rw [hl] at hmatch
          dsimp only at hmatch
          exact Bool.noConfusion hmatch
      | none =>
      rw [hl] at hmatch
      dsimp only at hmatch
      have hji := eq_of_beq hmatch
      subst hji
      rw [decode]
      rw [henc]
      dsimp only
      rw [decodeVariant]
      rw [create_symbol_string_symbol h f3 a _ henc]
      dsimp only
      rw [split_variant_encoded e vn hg1 hg2]
      dsimp only
      rw [hl]

/-- C1 (amended): under the unit-value / excluded-typing / full-naming
options combination, for every value of a supported shape that carries no
data-bearing variant, no optional whose payload encodes to Unit, and no
`"::"` inside variant name components, deserializing the handle produced by
serializing the value yields the value back exactly (any fuel at least the
value's size suffices). -/
theorem c1_default_round_trip (v : SValue) (sh : Shape) (f : Nat)
    (hf : sizeOf v ≤ f) (hgood : goodValue v = true)
    (hshape : hasShape v sh = true) :
    roundTrip defaultSerOptions v sh f = some (Except.ok v) := by
  obtain ⟨a, st2, hser, _, _, _, _, _, henc⟩ :=
    serialize_spec (sizeOf v) v (le_refl _) defaultSerOptions SerState.empty
  rw [roundTrip, hser]
  exact decode_encodes f v sh st2.heap a hf hgood hshape (henc rfl)

/-- C1 counterexample: the round trip fails under every non-default option
axis and for the value classes the amendment excludes — symbol-tagged
optionals (the `GarnishDataSerializer::new` session default) break numeric
payload decoding, short and index variant naming break enum decoding,
included struct typing breaks unit-struct decoding, and even under the
default combination a newtype variant and a `Some` holding a Unit-encoding
payload do not decode back to themselves. -/
theorem c1_round_trip_counterexample :
    roundTrip GarnishDataSerializer.newOptions (SValue.vSome (SValue.vInt 1))
      (Shape.sOption Shape.sInt) 9 = some (Except.error "Expected Number") ∧
    roundTrip { defaultSerOptions with
        variant_name_behavior := Serializer.VariantNameBehavior.Short }
      (SValue.vUnitVariant "En".data "V".data 0)
      (Shape.sEnum "En".data [("V".data, none)]) 9 =
      some (Except.error "Could not get enum value from symbols string") ∧
    roundTrip { defaultSerOptions with
        variant_name_behavior := Serializer.VariantNameBehavior.Index }
      (SValue.vUnitVariant "En".data "V".data 0)
      (Shape.sEnum "En".data [("V".data, none)]) 9 =
      some (Except.error "Expected List or Symbol for variant") ∧
    roundTrip { defaultSerOptions with
        unit_struct_behavior := Serializer.StructBehavior.IncludeTyping }
      (SValue.vUnitStruct "S".data) (Shape.sUnitStruct "S".data) 9 =
      some (Except.error "Expected Unit") ∧
    roundTrip defaultSerOptions
      (SValue.vNewtypeVariant "En".data "V".data 0 (SValue.vInt 7))
      (Shape.sEnum "En".data [("V".data, some Shape.sInt)]) 9 =
      some (Except.error "store error") ∧
    roundTrip defaultSerOptions (SValue.vSome SValue.vUnit)
      (Shape.sOption Shape.sUnit) 9 = some (Except.ok SValue.vNone) ∧
    SValue.vNone ≠ SValue.vSome SValue.vUnit := by
  refine ⟨rfl, rfl, rfl, rfl, rfl, rfl, ?_⟩
  intro hcontra
  exact SValue.noConfusion hcontra

/-- C1 witness: a struct holding a number, a tuple of a string and a
boolean, a sequence, a map and a unit enum variant round-trips under the
default options. -/
theorem c1_default_round_trip_witness :
    sizeOf (SValue.vStruct "P".data
      [("x".data, SValue.vInt 3),
       ("t".data, SValue.vTuple [SValue.vStr "ab".data, SValue.vBool true]),
       ("s".data, SValue.vSeq [SValue.vInt 1, SValue.vInt 2]),
       ("m".data, SValue.vMap [("k".data, SValue.vChar 'q')]),
       ("e".data, SValue.vUnitVariant "Color".data "Red".data 1)]) ≤ 4000 ∧
    goodValue (SValue.vStruct "P".data
      [("x".data, SValue.vInt 3),
       ("t".data, SValue.vTuple [SValue.vStr "ab".data, SValue.vBool true]),
       ("s".data, SValue.vSeq [SValue.vInt 1, SValue.vInt 2]),
       ("m".data, SValue.vMap [("k".data, SValue.vChar 'q')]),
       ("e".data, SValue.vUnitVariant "Color".data "Red".data 1)]) = true ∧
    hasShape (SValue.vStruct "P".data
      [("x".data, SValue.vInt 3),
       ("t".data, SValue.vTuple [SValue.vStr "ab".data, SValue.vBool true]),
       ("s".data, SValue.vSeq [SValue.vInt 1, SValue.vInt 2]),
       ("m".data, SValue.vMap [("k".data, SValue.vChar 'q')]),
       ("e".data, SValue.vUnitVariant "Color".data "Red".data 1)])
      (Shape.sStruct "P".data
        [("x".data, Shape.sInt),
         ("t".data, Shape.sTuple [Shape.sStr, Shape.sBool]),
         ("s".data, Shape.sSeq Shape.sInt),
         ("m".data, Shape.sMap Shape.sChar),
         ("e".data, Shape.sEnum "Color".data
           [("Blue".data, none), ("Red".data, none)])]) = true ∧
    roundTrip defaultSerOptions
      (SValue.vStruct "P".data
        [("x".data, SValue.vInt 3),
         ("t".data, SValue.vTuple [SValue.vStr "ab".data, SValue.vBool true]),
         ("s".data, SValue.vSeq [SValue.vInt 1, SValue.vInt 2]),
         ("m".data, SValue.vMap [("k".data, SValue.vChar 'q')]),
         ("e".data, SValue.vUnitVariant "Color".data "Red".data 1)])
      (Shape.sStruct "P".data
        [("x".data, Shape.sInt),
         ("t".data, Shape.sTuple [Shape.sStr, Shape.sBool]),
         ("s".data, Shape.sSeq Shape.sInt),
         ("m".data, Shape.sMap Shape.sChar),
         ("e".data, Shape.sEnum "Color".data
           [("Blue".data, none), ("Red".data, none)])]) 4000 =
      some (Except.ok (SValue.vStruct "P".data
        [("x".data, SValue.vInt 3),
         ("t".data, SValue.vTuple [SValue.vStr "ab".data, SValue.vBool true]),
         ("s".data, SValue.vSeq [SValue.vInt 1, SValue.vInt 2]),
         ("m".data, SValue.vMap [("k".data, SValue.vChar 'q')]),
         ("e".data, SValue.vUnitVariant "Color".data "Red".data 1)])) :=
  ⟨by decide, by decide, by decide,
    c1_default_round_trip _ _ 4000 (by decide) (by decide) (by decide)⟩
